import Mathlib

/-!
Verification of the engram event store and briefing engine.

The Python source (src/engram/store.py, briefing.py, query.py, models.py) is
shallowly embedded below: events become a Lean structure, the SQLite `events`
table becomes a list of decoded rows, and each operation becomes a pure
function.  Python's stable `list.sort` (and the modelled SQL `ORDER BY`) is
embedded as a stable insertion sort `pySort`; Python string comparison and
SQLite's BINARY collation are both code-point lexicographic and are embedded
as `strLe`/`strLt`.
-/

/-! ## Code-point lexicographic string order (Python `<=` / SQLite BINARY) -/

/-- Lexicographic `≤` on char lists, comparing code points. -/
def strListLe : List Char → List Char → Bool
  | [], _ => true
  | _ :: _, [] => false
  | a :: as, b :: bs => if a = b then strListLe as bs else decide (a.toNat < b.toNat)

/-- Lexicographic `<` on char lists, comparing code points. -/
def strListLt : List Char → List Char → Bool
  | [], [] => false
  | [], _ :: _ => true
  | _ :: _, [] => false
  | a :: as, b :: bs => if a = b then strListLt as bs else decide (a.toNat < b.toNat)

/-- Python's `s <= t` on strings (code-point lexicographic). -/
def strLe (a b : String) : Bool := strListLe a.data b.data

/-- Python's `s < t` on strings (code-point lexicographic). -/
def strLt (a b : String) : Bool := strListLt a.data b.data

theorem char_toNat_inj {a b : Char} (h : a.toNat = b.toNat) : a = b :=
  Char.ext (UInt32.ext h)

theorem strListLe_total (a b : List Char) : strListLe a b = true ∨ strListLe b a = true := by
  induction a generalizing b with
  | nil => left; rfl
  | cons x xs ih =>
    cases b with
    | nil => right; rfl
    | cons y ys =>
      by_cases hxy : x = y
      · subst hxy
        rcases ih ys with h | h
        · left; simpa [strListLe] using h
        · right; simpa [strListLe] using h
      · have hyx : y ≠ x := fun h => hxy h.symm
        have : x.toNat ≠ y.toNat := fun h => hxy (char_toNat_inj h)
        rcases Nat.lt_or_ge x.toNat y.toNat with h | h
        · left; simp [strListLe, hxy, h]
        · right
          have : y.toNat < x.toNat := by omega
          simp [strListLe, hyx, this]

theorem strListLe_trans {a b c : List Char} (h1 : strListLe a b = true)
    (h2 : strListLe b c = true) : strListLe a c = true := by
  induction a generalizing b c with
  | nil => rfl
  | cons x xs ih =>
    cases b with
    | nil => simp [strListLe] at h1
    | cons y ys =>
      cases c with
      | nil => simp [strListLe] at h2
      | cons z zs =>
        by_cases hxy : x = y <;> by_cases hyz : y = z
        · subst hxy; subst hyz
          simp only [strListLe, if_pos rfl] at h1 h2 ⊢
          exact ih h1 h2
        · subst hxy
          simpa [strListLe, hyz] using h2
        · subst hyz
          simpa [strListLe, hxy] using h1
        · simp only [strListLe, if_neg hxy, decide_eq_true_eq] at h1
          simp only [strListLe, if_neg hyz, decide_eq_true_eq] at h2
          by_cases hxz : x = z
          · subst hxz; omega
          · simp [strListLe, hxz]; omega

theorem strListLe_false_iff (a b : List Char) :
    strListLe a b = false ↔ strListLt b a = true := by
  induction a generalizing b with
  | nil => cases b <;> simp [strListLe, strListLt]
  | cons x xs ih =>
    cases b with
    | nil => simp [strListLe, strListLt]
    | cons y ys =>
      by_cases hxy : x = y
      · subst hxy
        simpa [strListLe, strListLt] using ih ys
      · have hyx : y ≠ x := fun h => hxy h.symm
        have hne : x.toNat ≠ y.toNat := fun h => hxy (char_toNat_inj h)
        simp only [strListLe, strListLt, if_neg hxy, if_neg hyx,
          decide_eq_false_iff_not, decide_eq_true_eq]
        omega

theorem strLe_total (a b : String) : strLe a b = true ∨ strLe b a = true :=
  strListLe_total a.data b.data

theorem strLe_trans {a b c : String} (h1 : strLe a b = true) (h2 : strLe b c = true) :
    strLe a c = true := strListLe_trans h1 h2

theorem strLe_false_iff (a b : String) : strLe a b = false ↔ strLt b a = true :=
  strListLe_false_iff a.data b.data

/-! ## Stable sort (Python `list.sort` / `sorted`)

Python's sort is stable.  A stable sort's output is determined by the
comparator, so any stable sort embeds it faithfully; we use insertion sort. -/

/-- Insert `a` into `l`, before the first element `b` with `le a b`.
Equal keys keep the existing element first, which is what makes the sort
stable. -/
def pyIns {α : Type} (le : α → α → Bool) (a : α) : List α → List α
  | [] => [a]
  | b :: bs => if le a b then a :: b :: bs else b :: pyIns le a bs

/-- Stable sort by the boolean comparator `le` (Python `sorted(l, key=...)`). -/
def pySort {α : Type} (le : α → α → Bool) : List α → List α
  | [] => []
  | x :: xs => pyIns le x (pySort le xs)

theorem pyIns_perm {α : Type} (le : α → α → Bool) (a : α) (l : List α) :
    (pyIns le a l).Perm (a :: l) := by
  induction l with
  | nil => rfl
  | cons b bs ih =>
    by_cases h : le a b = true
    · simp [pyIns, h]
    · simp only [pyIns, if_neg h]
      exact (ih.cons b).trans (List.Perm.swap a b bs)

theorem pySort_perm {α : Type} (le : α → α → Bool) (l : List α) :
    (pySort le l).Perm l := by
  induction l with
  | nil => rfl
  | cons x xs ih => exact (pyIns_perm le x (pySort le xs)).trans (ih.cons x)

theorem mem_pySort {α : Type} {le : α → α → Bool} {l : List α} {x : α} :
    x ∈ pySort le l ↔ x ∈ l := (pySort_perm le l).mem_iff

theorem mem_pyIns {α : Type} {le : α → α → Bool} {a x : α} {l : List α} :
    x ∈ pyIns le a l ↔ x = a ∨ x ∈ l := by
  rw [(pyIns_perm le a l).mem_iff]; simp

theorem pyIns_pairwise {α : Type} {le : α → α → Bool}
    (htot : ∀ a b, le a b = true ∨ le b a = true)
    (htrans : ∀ a b c, le a b = true → le b c = true → le a c = true)
    {a : α} {l : List α} (hl : l.Pairwise (fun x y => le x y = true)) :
    (pyIns le a l).Pairwise (fun x y => le x y = true) := by
  induction l with
  | nil => simp [pyIns]
  | cons b bs ih =>
    rcases List.pairwise_cons.mp hl with ⟨hb, hbs⟩
    by_cases h : le a b = true
    · simp only [pyIns, if_pos h]
      refine List.pairwise_cons.mpr ⟨?_, hl⟩
      intro z hz
      rcases List.mem_cons.mp hz with rfl | hz
      · exact h
      · exact htrans a b z h (hb z hz)
    · have hba : le b a = true := (htot a b).resolve_left h
      simp only [pyIns, if_neg h]
      refine List.pairwise_cons.mpr ⟨?_, ih hbs⟩
      intro x hx
      rcases mem_pyIns.mp hx with rfl | hx
      · exact hba
      · exact hb x hx

theorem pySort_pairwise {α : Type} {le : α → α → Bool}
    (htot : ∀ a b, le a b = true ∨ le b a = true)
    (htrans : ∀ a b c, le a b = true → le b c = true → le a c = true)
    (l : List α) : (pySort le l).Pairwise (fun x y => le x y = true) := by
  induction l with
  | nil => simp [pySort]
  | cons x xs ih => exact pyIns_pairwise htot htrans ih

theorem sublist_pyIns {α : Type} (le : α → α → Bool) (a : α) (l : List α) :
    l.Sublist (pyIns le a l) := by
  induction l with
  | nil => simp [pyIns]
  | cons b bs ih =>
    by_cases h : le a b = true
    · simp only [pyIns, if_pos h]
      exact (List.sublist_cons_self a (b :: bs))
    · simp only [pyIns, if_neg h]
      exact ih.cons₂ b

theorem pyIns_stable_pair {α : Type} {le : α → α → Bool} {a b : α} {l : List α}
    (hab : le a b = true) (hb : b ∈ l) : [a, b].Sublist (pyIns le a l) := by
  induction l with
  | nil => cases hb
  | cons y ys ih =>
    by_cases h : le a y = true
    · simp only [pyIns, if_pos h]
      exact (List.singleton_sublist.mpr hb).cons₂ a
    · simp only [pyIns, if_neg h]
      have hby : b ≠ y := by
        rintro rfl; exact h hab
      have : b ∈ ys := by
        rcases List.mem_cons.mp hb with h' | h'
        · exact absurd h' hby
        · exact h'
      exact (ih this).cons y

theorem pySort_stable_pair {α : Type} {le : α → α → Bool} {a b : α} {l : List α}
    (hab : le a b = true) (hsub : [a, b].Sublist l) :
    [a, b].Sublist (pySort le l) := by
  induction l with
  | nil => cases hsub
  | cons x xs ih =>
    rcases List.sublist_cons_iff.mp hsub with hsub' | ⟨r, hr, hrs⟩
    · exact (ih hsub').trans (sublist_pyIns le x (pySort le xs))
    · -- [a, b] = x :: r, so x = a and r = [b]
      have hx : x = a := by injection hr with h _; exact h.symm
      have hrb : r = [b] := by injection hr with _ h; exact h.symm
      subst hx; subst hrb
      have hbmem : b ∈ pySort le xs :=
        mem_pySort.mpr (List.singleton_sublist.mp hrs)
      exact pyIns_stable_pair hab hbmem

/-- For distinct elements of a list, one of the two pair orders is a sublist. -/
theorem pair_sublist_total {α : Type} {a b : α} {l : List α}
    (ha : a ∈ l) (hb : b ∈ l) (hne : a ≠ b) :
    [a, b].Sublist l ∨ [b, a].Sublist l := by
  induction l with
  | nil => cases ha
  | cons x xs ih =>
    by_cases hxa : x = a
    · subst hxa
      have hbxs : b ∈ xs := by
        rcases List.mem_cons.mp hb with h | h
        · exact absurd h.symm hne
        · exact h
      exact Or.inl ((List.singleton_sublist.mpr hbxs).cons₂ x)
    · by_cases hxb : x = b
      · subst hxb
        have haxs : a ∈ xs := by
          rcases List.mem_cons.mp ha with h | h
          · exact absurd h hne
          · exact h
        exact Or.inr ((List.singleton_sublist.mpr haxs).cons₂ x)
      · have ha' : a ∈ xs := by
          rcases List.mem_cons.mp ha with h | h
          · exact absurd h.symm hxa
          · exact h
        have hb' : b ∈ xs := by
          rcases List.mem_cons.mp hb with h | h
          · exact absurd h.symm hxb
          · exact h
        rcases ih ha' hb' with h | h
        · exact Or.inl (h.cons x)
        · exact Or.inr (h.cons x)

/-- In a duplicate-free list the two pair orders are mutually exclusive. -/
theorem pair_sublist_antisymm {α : Type} {a b : α} : ∀ {l : List α},
    l.Nodup → [a, b].Sublist l → [b, a].Sublist l → a = b := by
  intro l
  induction l with
  | nil => intro _ h1 _; cases h1
  | cons x xs ih =>
    intro hnd h1 h2
    obtain ⟨hxn, hnd'⟩ := List.nodup_cons.mp hnd
    rcases List.sublist_cons_iff.mp h1 with h1' | ⟨r, hr, hrs⟩
    · rcases List.sublist_cons_iff.mp h2 with h2' | ⟨r2, hr2, hrs2⟩
      · exact ih hnd' h1' h2'
      · injection hr2 with hb hr2'
        subst hb
        exact absurd (h1'.subset (by simp)) hxn
    · injection hr with ha hr'
      rcases List.sublist_cons_iff.mp h2 with h2' | ⟨r2, hr2, hrs2⟩
      · subst ha
        exact absurd (h2'.subset (by simp)) hxn
      · injection hr2 with hb _
        exact ha.trans hb.symm

/-! ## Data model (src/engram/models.py) -/

/-- `EventType` enum from models.py: the closed set of event types. -/
inductive EventType where
  | discovery
  | decision
  | warning
  | mutation
  | outcome
deriving DecidableEq

/-- The `Event` dataclass from models.py (field defaults as in the source).
`scope` and `related_ids` are `Option` to model Python `None`; the enum-like
string fields `status` and `priority` stay strings, validated by the SQLite
CHECK constraints at the persistence boundary. -/
structure Event where
  id : String
  timestamp : String
  event_type : EventType
  agent_id : String
  content : String
  scope : Option (List String) := none
  related_ids : Option (List String) := none
  status : String := "active"
  priority : String := "normal"
  resolved_reason : Option String := none
  superseded_by : Option String := none
  session_id : Option String := none
deriving DecidableEq

/-! ## Event store (src/engram/store.py)

The `events` table is modelled as a list of decoded rows in insertion order.
The JSON-encoded `scope`/`related_ids` columns round-trip (json.loads of
json.dumps is the identity on lists of strings), so a row is represented by
the decoded `Event`; `relatedJson` below reconstructs the exact column text
where the SQL needs it. -/

/-- Errors raised by the store (ValueError messages / sqlite3.IntegrityError). -/
inductive StoreError where
  | invalidStatus (s : String)
  | notFound (id : String)
  | checkViolation
  | uniqueViolation
deriving DecidableEq

def exceptIsOk {ε α : Type} : Except ε α → Bool
  | .ok _ => true
  | .error _ => false

/-- The `status` CHECK constraint of SCHEMA_SQL. -/
def validStatus (s : String) : Bool :=
  s = "active" || s = "resolved" || s = "superseded"

/-- The `priority` CHECK constraint of SCHEMA_SQL. -/
def validPriority (s : String) : Bool :=
  s = "critical" || s = "high" || s = "normal" || s = "low"

/-- Python truthiness on an optional list: `None` and `[]` are falsy.
`insert` stores NULL for a falsy `scope`/`related_ids`, so the decoded stored
row has `none` there. -/
def normOptList (l : Option (List String)) : Option (List String) :=
  match l with
  | none => none
  | some xs => if xs.isEmpty then none else some xs

/-- The id/timestamp assignment at the top of `EventStore.insert`:
`if not event.id: ...` / `if not event.timestamp: ...` (empty string is the
falsy case for these `str` fields). -/
def assignIdTs (event : Event) (genId genTs : String) : Event :=
  if (if event.id = "" then { event with id := genId } else event).timestamp = "" then
    { (if event.id = "" then { event with id := genId } else event) with timestamp := genTs }
  else (if event.id = "" then { event with id := genId } else event)

/-- The row the SQL INSERT stores: falsy `scope`/`related_ids` become NULL,
and `resolved_reason`/`superseded_by_event_id` are not in the INSERT's column
list, so the stored row has NULL there whatever the event object carried. -/
def storedRow (event : Event) (genId genTs : String) : Event :=
  { assignIdTs event genId genTs with
    scope := normOptList (assignIdTs event genId genTs).scope,
    related_ids := normOptList (assignIdTs event genId genTs).related_ids,
    resolved_reason := none,
    superseded_by := none }

/-- SQLite `length(X)` on a TEXT value: the number of characters strictly
before the first NUL character (not the full character count). -/
def sqliteLength (s : String) : Nat :=
  (s.data.takeWhile (fun c => c.toNat ≠ 0)).length

namespace EventStore

/-- `EventStore.insert` (store.py, lines 288-306): assigns id/timestamp when
absent, then executes the SQL INSERT, whose CHECK constraints
(`length(content) <= 2000` under SQLite `length`, status/priority enums;
`event_type` is closed by construction) and PRIMARY KEY uniqueness can
reject the row.  Returns the updated table plus the value the Python
function returns (the event object itself, not the re-read row). -/
def insert (db : List Event) (event : Event) (genId genTs : String) :
    Except StoreError (List Event × Event) :=
  if sqliteLength (storedRow event genId genTs).content > 2000 then .error .checkViolation
  else if ¬ validStatus (storedRow event genId genTs).status then .error .checkViolation
  else if ¬ validPriority (storedRow event genId genTs).priority then .error .checkViolation
  else if db.any (fun r => r.id = (storedRow event genId genTs).id) then
    .error .uniqueViolation
  else .ok (db ++ [storedRow event genId genTs], assignIdTs event genId genTs)

end EventStore

/-- The row update of the SQL `UPDATE events SET status = ?, resolved_reason
= ?, superseded_by_event_id = ? WHERE id = ?`. -/
def updRow (event_id status : String) (resolved_reason superseded_by : Option String)
    (e : Event) : Event :=
  if e.id = event_id then
    { e with status := status, resolved_reason := resolved_reason,
             superseded_by := superseded_by }
  else e

/-- `EventStore.update_status` (store.py, lines 422-445): validates that the
new status is one of the three legal strings, that the id exists, then
unconditionally overwrites `status`, `resolved_reason` and
`superseded_by_event_id` and returns the re-fetched row.  In the Python
signature `resolved_reason` and `superseded_by` default to `None`; callers
omitting them pass `none` here.  Note: the source performs no per-state
transition validation. -/
def update_status (db : List Event) (event_id status : String)
    (resolved_reason superseded_by : Option String) :
    Except StoreError (List Event × Event) :=
  if ¬ validStatus status then .error (.invalidStatus status)
  else
    match db.find? (fun e => e.id = event_id) with
    | none => .error (.notFound event_id)
    | some _ =>
      match (db.map (updRow event_id status resolved_reason superseded_by)).find?
          (fun e => e.id = event_id) with
      | none => .error (.notFound event_id)
      | some updated =>
        .ok (db.map (updRow event_id status resolved_reason superseded_by), updated)

/-! ## JSON column text and SQLite LIKE (for `query_related`) -/

/-- One hex digit as Python's json/`%04x` renders it (lowercase). -/
def hexDigitChar (n : Nat) : Char :=
  if n < 10 then Char.ofNat (48 + n) else Char.ofNat (87 + n)

/-- `\uXXXX` escape, four lowercase hex digits. -/
def uEscape (n : Nat) : List Char :=
  ['\\', 'u', hexDigitChar (n / 4096 % 16), hexDigitChar (n / 256 % 16),
   hexDigitChar (n / 16 % 16), hexDigitChar (n % 16)]

/-- How `json.dumps` (default `ensure_ascii=True`) encodes one character of a
string: named escapes for `\"`, `\\`, and the common control characters,
`\uXXXX` for other controls and all non-ASCII code points (with a surrogate
pair above U+FFFF), the character itself otherwise. -/
def pyJsonEscapeChar (c : Char) : List Char :=
  if c = '"' then ['\\', '"']
  else if c = '\\' then ['\\', '\\']
  else if c = Char.ofNat 8 then ['\\', 'b']
  else if c = Char.ofNat 9 then ['\\', 't']
  else if c = Char.ofNat 10 then ['\\', 'n']
  else if c = Char.ofNat 12 then ['\\', 'f']
  else if c = Char.ofNat 13 then ['\\', 'r']
  else if c.toNat < 32 then uEscape c.toNat
  else if c.toNat < 127 then [c]
  else if c.toNat ≤ 65535 then uEscape c.toNat
  else uEscape (55296 + (c.toNat - 65536) / 1024) ++
       uEscape (56320 + (c.toNat - 65536) % 1024)

/-- A JSON string literal as `json.dumps` renders it. -/
def pyJsonStr (s : String) : List Char :=
  '"' :: s.data.flatMap pyJsonEscapeChar ++ ['"']

/-- Body of a JSON array of strings with `json.dumps`'s default `", "`
separator. -/
def pyJsonBody : List String → List Char
  | [] => []
  | [s] => pyJsonStr s
  | s :: rest => pyJsonStr s ++ ',' :: ' ' :: pyJsonBody rest

/-- `json.dumps` of a list of strings. -/
def pyJsonDumps (l : List String) : List Char :=
  '[' :: (pyJsonBody l ++ [']'])

/-- The text of the `related_ids` column for a stored row: NULL (`none`) when
the Python list was falsy, else its `json.dumps`. -/
def relatedJson (e : Event) : Option (List Char) :=
  match e.related_ids with
  | none => none
  | some l => if l.isEmpty then none else some (pyJsonDumps l)

/-- SQLite `LIKE`'s default ASCII case folding. -/
def likeLower (c : Char) : Char :=
  if 65 ≤ c.toNat ∧ c.toNat ≤ 90 then Char.ofNat (c.toNat + 32) else c

/-- Character comparison under SQLite `LIKE` (case-insensitive for ASCII). -/
def likeCharEq (p c : Char) : Bool := likeLower p = likeLower c

/-- Does `f` hold of some suffix of the list (used for `%`)? -/
def anySuffix {α : Type} (f : List α → Bool) : List α → Bool
  | [] => f []
  | c :: s => f (c :: s) || anySuffix f s

/-- SQLite `LIKE` matching: `%` matches any run, `_` any single character,
anything else matches case-insensitively (ASCII); the pattern must cover the
whole string.  No ESCAPE clause is in play in the source. -/
def likeMatch : List Char → List Char → Bool
  | [], s => s.isEmpty
  | p :: ps, s =>
    if p = '%' then anySuffix (likeMatch ps) s
    else
      match s with
      | [] => false
      | c :: s' => (p = '_' || likeCharEq p c) && likeMatch ps s'

/-- The first pattern `query_related` binds: `%"{event_id}"]%`. -/
def relatedPatClose (event_id : String) : List Char :=
  '%' :: '"' :: (event_id.data ++ ['"', ']', '%'])

/-- The second pattern: `%"{event_id}",%`. -/
def relatedPatComma (event_id : String) : List Char :=
  '%' :: '"' :: (event_id.data ++ ['"', ',', '%'])

/-- The WHERE clause of `EventStore.query_related`:
`related_ids LIKE '%"{id}"]%' OR related_ids LIKE '%"{id}",%'`.
A NULL column never matches. -/
def relatedMatches (event_id : String) (e : Event) : Bool :=
  match relatedJson e with
  | none => false
  | some txt =>
    likeMatch (relatedPatClose event_id) txt || likeMatch (relatedPatComma event_id) txt

/-- `ORDER BY timestamp DESC` over the table rows, modelled as a stable
descending sort (ties keep table order, which SQL leaves unspecified). -/
def sortTsDesc (l : List Event) : List Event :=
  pySort (fun a b => strLe b.timestamp a.timestamp) l

/-- `EventStore.query_related` (store.py, lines 454-467). -/
def query_related (db : List Event) (event_id : String) (limit : Nat) : List Event :=
  (sortTsDesc (db.filter (relatedMatches event_id))).take limit

/-- Reference predicate for the spec's reading of `query_related`: the
`related_ids` list contains `event_id` as an element. -/
def relatedHas (e : Event) (event_id : String) : Bool :=
  match e.related_ids with
  | none => false
  | some l => l.contains event_id

/-! ## Calendar arithmetic (datetime model)

Proleptic Gregorian calendar, via the standard civil-from-days/days-from-civil
algorithms.  `datetime.fromisoformat` / `strptime` results are represented as
seconds (or microseconds) on a linear time scale. -/

def isLeapYear (y : Nat) : Bool :=
  y % 4 = 0 && (y % 100 ≠ 0 || y % 400 = 0)

def daysInMonth (y m : Nat) : Nat :=
  if m = 2 then (if isLeapYear y then 29 else 28)
  else if m = 4 || m = 6 || m = 9 || m = 11 then 30
  else 31

/-- Days from 1970-01-01 of civil date `y-m-d` (valid for `y ≥ 1`). -/
def daysFromCivil (y m d : Nat) : Int :=
  let yAdj : Int := (y : Int) - (if m ≤ 2 then 1 else 0)
  let era : Int := yAdj / 400
  let yoe : Int := yAdj - era * 400
  let mp : Int := if m > 2 then (m : Int) - 3 else (m : Int) + 9
  let doy : Int := (153 * mp + 2) / 5 + (d : Int) - 1
  let doe : Int := yoe * 365 + yoe / 4 - yoe / 100 + doy
  era * 146097 + doe - 719468

def checkDate (y m d : Nat) : Bool :=
  1 ≤ y && y ≤ 9999 && 1 ≤ m && m ≤ 12 && 1 ≤ d && d ≤ daysInMonth y m

def checkTime (h mi s : Nat) : Bool :=
  h ≤ 23 && mi ≤ 59 && s ≤ 59

/-- Seconds on the linear time scale for a civil date-time. -/
def civilSec (y m d h mi s : Nat) : Int :=
  daysFromCivil y m d * 86400 + (h : Int) * 3600 + (mi : Int) * 60 + (s : Int)

def digit2 (a b : Char) : Option Nat :=
  if a.isDigit && b.isDigit then some ((a.toNat - 48) * 10 + (b.toNat - 48)) else none

def digit4 (a b c d : Char) : Option Nat :=
  match digit2 a b, digit2 c d with
  | some hi, some lo => some (hi * 100 + lo)
  | _, _ => none

/-- Model of `datetime.fromisoformat` on the shapes reachable from canonical
ISO timestamps truncated to 19 characters: `YYYY-MM-DD`,
`YYYY-MM-DD[T ]HH:MM`, `YYYY-MM-DD[T ]HH:MM:SS`, with full range validation.
Other inputs give `none` (CPython accepts further ISO-8601 shapes; the
briefing code only ever reaches this through `timestamp[:19]`, and the claims
evaluate it on canonical timestamps).  Result: seconds on the linear scale. -/
def fromiso19 : List Char → Option Int
  | [y1, y2, y3, y4, '-', m1, m2, '-', d1, d2] => do
    let y ← digit4 y1 y2 y3 y4
    let m ← digit2 m1 m2
    let d ← digit2 d1 d2
    if checkDate y m d then some (civilSec y m d 0 0 0) else none
  | [y1, y2, y3, y4, '-', m1, m2, '-', d1, d2, sep, h1, h2, ':', i1, i2] => do
    if sep = 'T' || sep = ' ' then
      let y ← digit4 y1 y2 y3 y4
      let m ← digit2 m1 m2
      let d ← digit2 d1 d2
      let h ← digit2 h1 h2
      let mi ← digit2 i1 i2
      if checkDate y m d && checkTime h mi 0 then some (civilSec y m d h mi 0) else none
    else none
  | [y1, y2, y3, y4, '-', m1, m2, '-', d1, d2, sep, h1, h2, ':', i1, i2, ':', s1, s2] => do
    if sep = 'T' || sep = ' ' then
      let y ← digit4 y1 y2 y3 y4
      let m ← digit2 m1 m2
      let d ← digit2 d1 d2
      let h ← digit2 h1 h2
      let mi ← digit2 i1 i2
      let s ← digit2 s1 s2
      if checkDate y m d && checkTime h mi s then some (civilSec y m d h mi s) else none
    else none
  | _ => none

/-! ## Briefing generator (src/engram/briefing.py) -/

/-- `_short_timestamp` (formatting.py): `ts[:16].replace("T", " ")`.
Replacing the single-character pattern `"T"` is a character-wise map. -/
def shortTimestamp (ts : String) : String :=
  ⟨(ts.data.take 16).map (fun c => if c = 'T' then ' ' else c)⟩

/-- `_PRIORITY_ORDER.get(e.priority, 2)` (briefing.py line 12 and 143). -/
def priorityOrder (e : Event) : Nat :=
  if e.priority = "critical" then 0
  else if e.priority = "high" then 1
  else if e.priority = "normal" then 2
  else if e.priority = "low" then 3
  else 2

/-- `_sort_by_priority_recency`: two stable sorts in sequence — first by
timestamp descending, then by priority ascending. -/
def sortByPriorityRecency (events : List Event) : List Event :=
  let events_sorted := pySort (fun a b => strLe b.timestamp a.timestamp) events
  pySort (fun a b => decide (priorityOrder a ≤ priorityOrder b)) events_sorted

/-- Python truthiness of `event.scope` (`not event.scope`). -/
def scopeTruthy (e : Event) : Bool :=
  match e.scope with
  | none => false
  | some l => !l.isEmpty

def scopeList (e : Event) : List String := e.scope.getD []

/-- Python `s.startswith(pre)`. -/
def pyStartswith (s pre : String) : Bool := pre.data.isPrefixOf s.data

/-- The scope loop of `_scope_relevance`: first entry with any prefix
relation to the focus path decides the score (3 exact, 2 event scope is a
prefix of focus, 1 focus is a prefix of event scope). -/
def relLoop (focus_path : String) : List String → Nat
  | [] => 0
  | s :: rest =>
    if s = focus_path then 3
    else if pyStartswith focus_path s then 2
    else if pyStartswith s focus_path then 1
    else relLoop focus_path rest

/-- `BriefingGenerator._scope_relevance`. -/
def scopeRelevance (event : Event) (focus_path : String) : Nat :=
  if !scopeTruthy event then 0 else relLoop focus_path (scopeList event)

/-- The window-extension test of `_deduplicate_mutations`: both timestamps
are truncated to 19 characters and parsed; the event joins the current
window when the difference is at most 30 minutes, and also (the `except
ValueError` branch) when either side fails to parse. -/
def gapJoins (prev curr : Event) : Bool :=
  match fromiso19 (prev.timestamp.data.take 19), fromiso19 (curr.timestamp.data.take 19) with
  | some p, some c => decide (c - p ≤ 1800)
  | _, _ => true

/-- The windowing loop: `cur` is the current window, `curLast` its last
element (`current_window[-1]`). -/
def splitWindowsAux (acc : List (List Event)) (cur : List Event) (curLast : Event) :
    List Event → List (List Event)
  | [] => acc ++ [cur]
  | e :: rest =>
    if gapJoins curLast e then splitWindowsAux acc (cur ++ [e]) e rest
    else splitWindowsAux (acc ++ [cur]) [e] e rest

def splitWindows : List Event → List (List Event)
  | [] => []
  | g :: gs => splitWindowsAux [] [g] g gs

/-- The synthetic event a window of size ≥ 2 collapses into
(briefing.py lines 197-210).  Fields not passed to the `Event` constructor
there — `status`, `priority`, `resolved_reason`, `superseded_by`,
`session_id` — take the dataclass defaults. -/
def collapseEvent (filepath : String) (w : List Event) (h : w ≠ []) : Event :=
  let latest := w.getLast h
  let firstEv := w.head h
  { id := latest.id
    timestamp := latest.timestamp
    event_type := latest.event_type
    agent_id := latest.agent_id
    content := "Modified " ++ filepath ++ " (" ++ toString w.length ++ " edits, "
      ++ shortTimestamp firstEv.timestamp ++ "-" ++ shortTimestamp latest.timestamp ++ ")"
    scope := latest.scope
    related_ids := some (w.map (fun e => e.id)) }

/-- A window of size 1 passes through; a window of size ≥ 2 collapses. -/
def processWindow (filepath : String) : List Event → List Event
  | [] => []
  | [e] => [e]
  | e1 :: e2 :: rest => [collapseEvent filepath (e1 :: e2 :: rest) (by simp)]

/-- Per-group processing: singleton groups short-circuit; larger groups are
sorted chronologically (stable), split into windows, and each window is
passed through or collapsed. -/
def processGroup (filepath : String) (group : List Event) : List Event :=
  match group with
  | [g] => [g]
  | _ =>
    let sortedGroup := pySort (fun a b => strLe a.timestamp b.timestamp) group
    (splitWindows sortedGroup).flatMap (processWindow filepath)

/-- Append `e` to the group keyed `k`, or start a new group at the end
(Python dict insertion order). -/
def upsertGroup : List ((String × String) × List Event) → (String × String) → Event →
    List ((String × String) × List Event)
  | [], k, e => [(k, [e])]
  | (k', l) :: rest, k, e =>
    if k' = k then (k', l ++ [e]) :: rest else (k', l) :: upsertGroup rest k e

/-- The grouping pass of `_deduplicate_mutations`: mutations whose scope is
exactly one file go into the `(file, agent_id)` group; the rest pass through
in order. -/
def buildGroups (mutations : List Event) :
    List ((String × String) × List Event) × List Event :=
  mutations.foldl (fun acc event =>
    match event.scope with
    | some [s] => (upsertGroup acc.1 (s, event.agent_id) event, acc.2)
    | _ => (acc.1, acc.2 ++ [event])) ([], [])

/-- `BriefingGenerator._deduplicate_mutations` (briefing.py lines 146-215). -/
def dedupMutations (mutations : List Event) : List Event :=
  if mutations.isEmpty then mutations
  else
    let grouped := buildGroups mutations
    let result := grouped.2 ++ grouped.1.flatMap (fun g => processGroup g.1.1 g.2)
    sortTsDesc result

/-- Scope overlap: `event_scopes & set(mutation.scope)` non-empty. -/
def scopesOverlap (e m : Event) : Bool :=
  (scopeList e).any (fun s => (scopeList m).contains s)

/-- `BriefingGenerator._detect_stale` (briefing.py lines 217-237). -/
def detectStale (decisions_and_warnings mutations : List Event) : List Event :=
  decisions_and_warnings.filter (fun event =>
    scopeTruthy event &&
    mutations.any (fun mutation =>
      scopeTruthy mutation &&
      !(strLe mutation.timestamp event.timestamp) &&
      scopesOverlap event mutation))

/-- The event-list fields of `BriefingResult` (models.py).  The scalar
metadata fields (project name, counts, time range) play no role in any
claim and are omitted from the model. -/
structure BriefingResult where
  critical_warnings : List Event := []
  focus_relevant : List Event := []
  other_active : List Event := []
  recently_resolved : List Event := []
  recent_mutations : List Event := []
  potentially_stale : List Event := []
deriving DecidableEq

/-- Section 1 filter: warnings with critical priority or falsy scope. -/
def criticalFilter (warnings : List Event) : List Event :=
  warnings.filter (fun e => e.priority = "critical" || !scopeTruthy e)

/-- `BriefingGenerator.generate` (briefing.py lines 21-109) after the five
per-type store fetches, which arrive as the list arguments (`warnings`,
`decisions`, `mutations`, `discoveries`, `outcomes`); `recently_resolved`
stands for the independent step-4 fetch of resolved events. -/
def generate (warnings decisions mutations discoveries outcomes
    recently_resolved : List Event) (focus : Option String) : BriefingResult :=
  let dedupedMutations := dedupMutations mutations
  let stale := detectStale (warnings ++ decisions) dedupedMutations
  let all_active := warnings ++ decisions ++ discoveries ++ outcomes
  let critical_warnings := criticalFilter warnings
  let critical_ids := critical_warnings.map (fun e => e.id)
  let focusPair : List Event × List String :=
    match focus with
    | none => ([], [])
    | some f =>
      let fr := all_active.filter (fun e =>
        !(critical_ids.contains e.id) && decide (0 < scopeRelevance e f))
      (sortByPriorityRecency fr, fr.map (fun e => e.id))
  let other_active := all_active.filter (fun e =>
    !(critical_ids.contains e.id) && !(focusPair.2.contains e.id))
  { critical_warnings := sortByPriorityRecency critical_warnings
    focus_relevant := focusPair.1
    other_active := sortByPriorityRecency other_active
    recently_resolved := recently_resolved
    recent_mutations := dedupedMutations
    potentially_stale := stale }

/-! ## Query engine: `parse_since` (src/engram/query.py)

`datetime` values are represented as microseconds since `datetime.min`
(0001-01-01T00:00:00); `timedelta` values as microseconds.  CPython bounds:
`timedelta` is limited to ±999999999 days, `datetime` to years 1..9999;
arithmetic leaving those ranges raises `OverflowError`. -/

inductive PyError where
  | overflowError
deriving DecidableEq

/-- Largest `timedelta`, in microseconds. -/
def tdMaxUs : Int := (999999999 * 86400 + 86399) * 1000000 + 999999

/-- Largest `datetime`, in microseconds since `datetime.min`. -/
def dtMaxUs : Int :=
  (daysFromCivil 9999 12 31 - daysFromCivil 1 1 1) * 86400000000 + 86399999999

/-- Microseconds since `datetime.min` for a civil date-time (year ≥ 1). -/
def usOfCivil (y m d h mi s : Nat) : Int :=
  (daysFromCivil y m d - daysFromCivil 1 1 1) * 86400000000
    + ((h * 3600 + mi * 60 + s : Nat) : Int) * 1000000

/-- Civil date from a day count relative to 1970-01-01 (inverse of
`daysFromCivil`; valid on the `datetime` range). -/
def civilFromDays (z : Int) : Nat × Nat × Nat :=
  let zc := z + 719468
  let era := zc / 146097
  let doe := zc - era * 146097
  let yoe := (doe - doe / 1460 + doe / 36524 - doe / 146096) / 365
  let doy := doe - (365 * yoe + yoe / 4 - yoe / 100)
  let mp := (5 * doy + 2) / 153
  let d := doy - (153 * mp + 2) / 5 + 1
  let m := if mp < 10 then mp + 3 else mp - 9
  let y := (if m ≤ 2 then yoe + era * 400 + 1 else yoe + era * 400)
  (y.toNat, m.toNat, d.toNat)

def padDigits (w n : Nat) : List Char :=
  let s := (Nat.repr n).data
  List.replicate (w - s.length) '0' ++ s

/-- `datetime.isoformat()` of an aware datetime: wall-clock part (fractional
seconds only when the microsecond field is nonzero) followed by the rendered
UTC offset. -/
def isoRender (us : Int) (offStr : String) : String :=
  let t := us.toNat
  let day := t / 86400000000
  let rem := t % 86400000000
  let c := civilFromDays ((day : Int) - 719162)
  let h := rem / 3600000000
  let rem2 := rem % 3600000000
  let mi := rem2 / 60000000
  let rem3 := rem2 % 60000000
  let sec := rem3 / 1000000
  let micro := rem3 % 1000000
  (⟨padDigits 4 c.1 ++ '-' :: padDigits 2 c.2.1 ++ '-' :: padDigits 2 c.2.2
    ++ 'T' :: padDigits 2 h ++ ':' :: padDigits 2 mi ++ ':' :: padDigits 2 sec
    ++ (if micro = 0 then [] else '.' :: padDigits 6 micro)⟩ : String) ++ offStr

/-- How `isoformat` renders a fixed UTC offset: `±HH:MM`, with `:SS` when the
offset has a seconds part and `.ffffff` when it has microseconds. -/
def renderOffset (offUs : Int) : String :=
  let sign := if offUs < 0 then '-' else '+'
  let t := offUs.natAbs
  let hh := t / 3600000000
  let rem := t % 3600000000
  let mm := rem / 60000000
  let rem2 := rem % 60000000
  let ss := rem2 / 1000000
  let micro := rem2 % 1000000
  ⟨sign :: (padDigits 2 hh ++ ':' :: padDigits 2 mm
    ++ (if ss = 0 && micro = 0 then []
        else ':' :: padDigits 2 ss ++ (if micro = 0 then [] else '.' :: padDigits 6 micro)))⟩

/-- Python `str.strip()` whitespace, restricted to ASCII, where `str.isspace`
holds exactly of U+0009..U+000D, U+001C..U+001F and U+0020.  Python also
strips Unicode whitespace (U+00A0, U+2028, ...), so `pyStrip` agrees with
`str.strip()` only on all-ASCII strings; the pass-through theorem carries
that hypothesis. -/
def pyIsSpace (c : Char) : Bool :=
  (9 ≤ c.toNat && c.toNat ≤ 13) || (28 ≤ c.toNat && c.toNat ≤ 31) || c = ' '

def pyStrip (s : String) : String :=
  ⟨((s.data.dropWhile pyIsSpace).reverse.dropWhile pyIsSpace).reverse⟩

def natOfDigits (ds : List Char) : Nat :=
  ds.foldl (fun n c => n * 10 + (c.toNat - 48)) 0

/-- `RELATIVE_TIME_PATTERN`: `^(\d+)(m|h|d|w)$` on the stripped string.
Python's `\d` matches any Unicode decimal digit (category Nd) and `int`
accepts them, so this ASCII-digit model agrees with the program only on
all-ASCII strings; the pass-through theorem carries that hypothesis.  (The
same restriction applies to the `\d` inside the `strptime` field regexes
below.) -/
def splitRelative (l : List Char) : Option (Nat × Char) :=
  match l.getLast? with
  | none => none
  | some u =>
    if u = 'm' || u = 'h' || u = 'd' || u = 'w' then
      let ds := l.dropLast
      if !ds.isEmpty && ds.all Char.isDigit then some (natOfDigits ds, u) else none
    else none

/-- `TIME_MULTIPLIERS` in microseconds. -/
def unitUs : Char → Int
  | 'm' => 60000000
  | 'h' => 3600000000
  | 'd' => 86400000000
  | _ => 604800000000

/-! Single-pass models of the CPython `strptime` field regexes.  Each mirrors
the regex alternation order (`%m` is `1[0-2]|0[1-9]|[1-9]`, `%d` is
`3[01]|[12]\d|0[1-9]|[1-9]`, `%H` is `2[0-3]|[0-1]\d|\d`, `%M`/`%S` are
`[0-5]\d|\d`); `strptime` then validates the day against the month via the
`datetime` constructor. -/

def parseY4 : List Char → Option (Nat × List Char)
  | a :: b :: c :: d :: rest =>
    match digit4 a b c d with
    | some y => some (y, rest)
    | none => none
  | _ => none

def parseMonthRe : List Char → Option (Nat × List Char)
  | '1' :: c :: rest =>
    if '0' ≤ c ∧ c ≤ '2' then some (10 + (c.toNat - 48), rest) else some (1, c :: rest)
  | '0' :: c :: rest =>
    if c.isDigit ∧ c ≠ '0' then some (c.toNat - 48, rest) else none
  | c :: rest => if c.isDigit ∧ c ≠ '0' then some (c.toNat - 48, rest) else none
  | [] => none

def parseDayRe : List Char → Option (Nat × List Char)
  | '3' :: c :: rest =>
    if c = '0' ∨ c = '1' then some (30 + (c.toNat - 48), rest) else some (3, c :: rest)
  | c1 :: c2 :: rest =>
    if (c1 = '1' ∨ c1 = '2') ∧ c2.isDigit then
      some ((c1.toNat - 48) * 10 + (c2.toNat - 48), rest)
    else if c1 = '0' then
      (if c2.isDigit ∧ c2 ≠ '0' then some (c2.toNat - 48, rest) else none)
    else if c1.isDigit ∧ c1 ≠ '0' then some (c1.toNat - 48, c2 :: rest)
    else none
  | [c] => if c.isDigit ∧ c ≠ '0' then some (c.toNat - 48, []) else none
  | [] => none

def parseHourRe : List Char → Option (Nat × List Char)
  | '2' :: c :: rest =>
    if '0' ≤ c ∧ c ≤ '3' then some (20 + (c.toNat - 48), rest) else some (2, c :: rest)
  | c1 :: c2 :: rest =>
    if (c1 = '0' ∨ c1 = '1') ∧ c2.isDigit then
      some ((c1.toNat - 48) * 10 + (c2.toNat - 48), rest)
    else if c1.isDigit then some (c1.toNat - 48, c2 :: rest)
    else none
  | [c] => if c.isDigit then some (c.toNat - 48, []) else none
  | [] => none

def parseMinSecRe : List Char → Option (Nat × List Char)
  | c1 :: c2 :: rest =>
    if ('0' ≤ c1 ∧ c1 ≤ '5') ∧ c2.isDigit then
      some ((c1.toNat - 48) * 10 + (c2.toNat - 48), rest)
    else if c1.isDigit then some (c1.toNat - 48, c2 :: rest)
    else none
  | [c] => if c.isDigit then some (c.toNat - 48, []) else none
  | [] => none

/-- A literal format character (strptime compiles its regex with
`re.IGNORECASE`, so `T` also matches `t`). -/
def expectCI (c : Char) : List Char → Option (List Char)
  | x :: rest => if likeLower x = likeLower c then some rest else none
  | [] => none

/-- `strptime(s, "%Y-%m-%d")`: the parsed date as microseconds, or `none`. -/
def strptimeDate (l : List Char) : Option Int := do
  let (y, r1) ← parseY4 l
  let r2 ← expectCI '-' r1
  let (m, r3) ← parseMonthRe r2
  let r4 ← expectCI '-' r3
  let (d, r5) ← parseDayRe r4
  if r5.isEmpty ∧ checkDate y m d then some (usOfCivil y m d 0 0 0) else none

/-- The shared `%Y-%m-%dT%H:%M:%S` prefix of the second and third formats. -/
def parseDateTimeCore (l : List Char) : Option (Int × List Char) := do
  let (y, r1) ← parseY4 l
  let r2 ← expectCI '-' r1
  let (m, r3) ← parseMonthRe r2
  let r4 ← expectCI '-' r3
  let (d, r5) ← parseDayRe r4
  let r6 ← expectCI 'T' r5
  let (h, r7) ← parseHourRe r6
  let r8 ← expectCI ':' r7
  let (mi, r9) ← parseMinSecRe r8
  let r10 ← expectCI ':' r9
  let (s, r11) ← parseMinSecRe r10
  if checkDate y m d then some (usOfCivil y m d h mi s, r11) else none

/-- `strptime(s, "%Y-%m-%dT%H:%M:%S")`. -/
def strptimeDateTime (l : List Char) : Option Int := do
  let (us, rest) ← parseDateTimeCore l
  if rest.isEmpty then some us else none

/-- The optional `(:?[0-5]\d(\.\d{1,6})?)?` seconds part of `%z`; a partial
match backtracks to "absent" (returning the input unchanged). -/
def parseZSec (l : List Char) : Int × List Char :=
  let afterColon := match l with | ':' :: r => r | r => r
  match afterColon with
  | s1 :: s2 :: rest =>
    if ('0' ≤ s1 ∧ s1 ≤ '5') ∧ s2.isDigit then
      let ss := (s1.toNat - 48) * 10 + (s2.toNat - 48)
      match rest with
      | '.' :: fr =>
        let taken := (fr.takeWhile Char.isDigit).take 6
        if taken.isEmpty then (((ss : Int)) * 1000000, '.' :: fr)
        else ((ss * 1000000 + natOfDigits taken * 10 ^ (6 - taken.length) : Nat),
              fr.drop taken.length)
      | r => (((ss : Int)) * 1000000, r)
    else (0, l)
  | _ => (0, l)

/-- The `%z` directive: `[+-]\d\d:?[0-5]\d(:?[0-5]\d(\.\d{1,6})?)?|Z` (the
`Z` is case-sensitive).  Result: the UTC offset in microseconds. -/
def parseZ : List Char → Option (Int × List Char)
  | 'Z' :: rest => some (0, rest)
  | sign :: d1 :: d2 :: rest =>
    if (sign = '+' ∨ sign = '-') ∧ d1.isDigit ∧ d2.isDigit then
      let hh := (d1.toNat - 48) * 10 + (d2.toNat - 48)
      let r2 := match rest with | ':' :: r => r | r => r
      match r2 with
      | m1 :: m2 :: r3 =>
        if ('0' ≤ m1 ∧ m1 ≤ '5') ∧ m2.isDigit then
          let mm := (m1.toNat - 48) * 10 + (m2.toNat - 48)
          let secPart := parseZSec r3
          let total : Int := ((hh * 3600 + mm * 60 : Nat) : Int) * 1000000 + secPart.1
          some (if sign = '-' then -total else total, secPart.2)
        else none
      | _ => none
    else none
  | _ => none

/-- `strptime(s, "%Y-%m-%dT%H:%M:%S%z")`: wall-clock microseconds plus the
parsed offset; the `timezone` constructor rejects offsets of 24 hours or
more. -/
def strptimeDateTimeTz (l : List Char) : Option (Int × Int) := do
  let (us, rest) ← parseDateTimeCore l
  let (off, rest2) ← parseZ rest
  if rest2.isEmpty ∧ off.natAbs < 86400000000 then some (us, off) else none

/-- `parse_since` (query.py, lines 19-45).  `nowUs` is
`datetime.now(timezone.utc)` on the linear scale.  The relative branch can
overflow (`timedelta * int` beyond the timedelta range, or `datetime -
timedelta` leaving the datetime range); a string matching neither the
relative pattern nor any of the three formats is returned unchanged. -/
def parse_since (nowUs : Int) (since : String) : Except PyError String :=
  let stripped := (pyStrip since).data
  match splitRelative stripped with
  | some au =>
    let delta := unitUs au.2 * (au.1 : Int)
    if delta > tdMaxUs then .error .overflowError
    else
      let dt := nowUs - delta
      if dt < 0 ∨ dt > dtMaxUs then .error .overflowError
      else .ok (isoRender dt "+00:00")
  | none =>
    match strptimeDate stripped with
    | some us => .ok (isoRender us "+00:00")
    | none =>
      match strptimeDateTime stripped with
      | some us => .ok (isoRender us "+00:00")
      | none =>
        match strptimeDateTimeTz stripped with
        | some uo => .ok (isoRender uo.1 (renderOffset uo.2))
        | none => .ok since

/-! ## Theorems -/

theorem find?_congr' {α : Type} {p q : α → Bool} (h : ∀ x, p x = q x) (l : List α) :
    l.find? p = l.find? q := by
  induction l with
  | nil => rfl
  | cons x xs ih =>
    simp only [List.find?]
    rw [h x]
    cases q x
    · exact ih
    · rfl

theorem updRow_id (event_id status : String) (rr sb : Option String) (e : Event) :
    (updRow event_id status rr sb e).id = e.id := by
  unfold updRow
  split <;> rfl

theorem find?_map_updRow (db : List Event) (event_id status : String)
    (rr sb : Option String) :
    (db.map (updRow event_id status rr sb)).find? (fun e => e.id = event_id)
      = (db.find? (fun e => e.id = event_id)).map (updRow event_id status rr sb) := by
  rw [List.find?_map]
  rw [find?_congr' (q := fun e => decide (e.id = event_id))
    (fun e => by simp [Function.comp, updRow_id])]

/-- When the status is legal and the row exists, `update_status` succeeds and
returns the mapped table plus the updated row. -/
theorem update_status_found (db : List Event) (event_id status : String)
    (rr sb : Option String) (e : Event)
    (hv : validStatus status = true)
    (hf : db.find? (fun x => x.id = event_id) = some e) :
    update_status db event_id status rr sb =
      .ok (db.map (updRow event_id status rr sb), updRow event_id status rr sb e) := by
  unfold update_status
  rw [if_neg (by simp [hv]), hf, find?_map_updRow, hf]
  rfl

/-- C1 (amended): `update_status` validates only that `new_status` is one of
the three legal values (failing with `InvalidStatus` otherwise) and that the
id exists (failing with `NotFound` otherwise); it applies no per-state
machine check — see `c1_counterexample` — and `resolved → active → resolved`
is a legal sequence leaving the event resolved with the fresh reason. -/
theorem c1_update_status_validation (db : List Event) (event_id status : String)
    (rr sb : Option String) :
    (validStatus status = false →
      update_status db event_id status rr sb = .error (.invalidStatus status))
    ∧ (validStatus status = true →
       db.find? (fun e => e.id = event_id) = none →
       update_status db event_id status rr sb = .error (.notFound event_id))
    ∧ (∀ e, db.find? (fun x => x.id = event_id) = some e →
       ∀ reason : String,
       ∃ db1 e1 db2 e2,
         update_status db event_id "active" none none = .ok (db1, e1) ∧
         e1.status = "active" ∧ e1.resolved_reason = none ∧ e1.superseded_by = none ∧
         update_status db1 event_id "resolved" (some reason) none = .ok (db2, e2) ∧
         e2.status = "resolved" ∧ e2.resolved_reason = some reason) := by
  refine ⟨?_, ?_, ?_⟩
  · intro hv
    unfold update_status
    rw [if_pos (by simp [hv])]
  · intro hv hnone
    unfold update_status
    rw [if_neg (by simp [hv]), hnone]
  · intro e hf reason
    have hid : e.id = event_id := by
      have := List.find?_eq_some.mp hf
      simpa using this.1
    have hf1 : (db.map (updRow event_id "active" none none)).find?
        (fun x => x.id = event_id) = some (updRow event_id "active" none none e) := by
      rw [find?_map_updRow, hf]
      rfl
    refine ⟨db.map (updRow event_id "active" none none),
      updRow event_id "active" none none e,
      (db.map (updRow event_id "active" none none)).map
        (updRow event_id "resolved" (some reason) none),
      updRow event_id "resolved" (some reason) none (updRow event_id "active" none none e),
      update_status_found db event_id "active" none none e (by decide) hf,
      by simp [updRow, hid], by simp [updRow, hid], by simp [updRow, hid],
      update_status_found _ event_id "resolved" (some reason) none _ (by decide) hf1,
      by simp [updRow, hid], by simp [updRow, hid]⟩

/-- C1 counterexample input: a superseded event. -/
def evSup : Event :=
  { id := "evt-1", timestamp := "2026-01-01T00:00:00+00:00", event_type := .warning,
    agent_id := "agent-1", content := "w", status := "superseded",
    superseded_by := some "evt-2" }

/-- The row `update_status(id, "active")` turns `evSup` into. -/
def evSupReopened : Event :=
  { evSup with status := "active", resolved_reason := none, superseded_by := none }

/-- C1 counterexample: on an event whose status is `superseded`, the store's
`update_status` succeeds in reopening it (no hard error), refuting the claim
that any transition out of `superseded` fails at the store layer. -/
theorem c1_counterexample :
    evSup.status = "superseded" ∧
    update_status [evSup] "evt-1" "active" none none =
      .ok ([evSupReopened], evSupReopened) := by
  constructor
  · rfl
  · rfl

/-- C1 witness: the three conjuncts of the amended theorem at concrete
inputs. -/
theorem c1_witness :
    (update_status [evSup] "evt-1" "bogus" none none = .error (.invalidStatus "bogus"))
    ∧ (update_status [evSup] "evt-9" "active" none none = .error (.notFound "evt-9"))
    ∧ (∃ db1 e1 db2 e2,
        update_status [evSup] "evt-1" "active" none none = .ok (db1, e1) ∧
        e1.status = "active" ∧ e1.resolved_reason = none ∧ e1.superseded_by = none ∧
        update_status db1 "evt-1" "resolved" (some "done") none = .ok (db2, e2) ∧
        e2.status = "resolved" ∧ e2.resolved_reason = some "done") :=
  ⟨(c1_update_status_validation [evSup] "evt-1" "bogus" none none).1 (by decide),
   (c1_update_status_validation [evSup] "evt-9" "active" none none).2.1 (by decide)
     (by decide),
   (c1_update_status_validation [evSup] "evt-1" "active" none none).2.2 evSup (by decide)
     "done"⟩

theorem assignIdTs_content (event : Event) (genId genTs : String) :
    (assignIdTs event genId genTs).content = event.content := by
  unfold assignIdTs
  split <;> split <;> rfl

theorem storedRow_content (event : Event) (genId genTs : String) :
    (storedRow event genId genTs).content = event.content := by
  unfold storedRow
  exact assignIdTs_content event genId genTs

theorem storedRow_status (event : Event) (genId genTs : String) :
    (storedRow event genId genTs).status = event.status := by
  unfold storedRow assignIdTs
  split <;> split <;> rfl

theorem storedRow_priority (event : Event) (genId genTs : String) :
    (storedRow event genId genTs).priority = event.priority := by
  unfold storedRow assignIdTs
  split <;> split <;> rfl

theorem storedRow_id (event : Event) (genId genTs : String) :
    (storedRow event genId genTs).id = (if event.id = "" then genId else event.id) := by
  unfold storedRow assignIdTs
  split <;> split <;> simp_all

/-- C5 (amended): the schema CHECK is `length(content) <= 2000` with SQLite
`length`, which counts only the characters before the first NUL — the insert
rejects (never truncates) when that count is 2001 or more, and succeeds when
it is at most 2000 and the other fields are valid, storing the content
unmodified; for NUL-free content the SQLite length is the full character
count, so the claimed 2001/2000 boundary holds exactly there.  The original
claim, stated at the full character count, is refuted by
`c5_counterexample`. -/
theorem c5_insert_content_bound (db : List Event) (event : Event) (genId genTs : String) :
    (2001 ≤ sqliteLength event.content →
      exceptIsOk (EventStore.insert db event genId genTs) = false)
    ∧ (sqliteLength event.content ≤ 2000 →
       validStatus event.status = true →
       validPriority event.priority = true →
       db.any (fun r => r.id = (if event.id = "" then genId else event.id)) = false →
       EventStore.insert db event genId genTs =
         .ok (db ++ [storedRow event genId genTs], assignIdTs event genId genTs) ∧
       (storedRow event genId genTs).content = event.content ∧
       (assignIdTs event genId genTs).content = event.content)
    ∧ (event.content.data.all (fun c => c.toNat ≠ 0) = true →
       sqliteLength event.content = event.content.length) := by
  refine ⟨?_, ?_, ?_⟩
  · intro hlen
    unfold EventStore.insert
    rw [if_pos (by rw [storedRow_content]; omega)]
    rfl
  · intro hlen hst hpr hdup
    refine ⟨?_, storedRow_content event genId genTs, assignIdTs_content event genId genTs⟩
    unfold EventStore.insert
    rw [if_neg (by rw [storedRow_content]; omega),
        if_neg (by rw [storedRow_status, hst]; simp),
        if_neg (by rw [storedRow_priority, hpr]; simp),
        if_neg ?_]
    have : (fun (r : Event) => decide (r.id = (storedRow event genId genTs).id))
        = (fun (r : Event) => decide (r.id = (if event.id = "" then genId else event.id))) := by
      funext r
      rw [storedRow_id]
    rw [this, hdup]
    simp
  · intro hall
    show (event.content.data.takeWhile (fun c => c.toNat ≠ 0)).length = event.content.length
    rw [List.takeWhile_eq_self_iff.mpr (by simpa [List.all_eq_true] using hall)]
    rfl

/-- A discovery event with content of `n` copies of `'a'`. -/
def evOfLen (n : Nat) : Event :=
  { id := "evt-1", timestamp := "2026-01-01T00:00:00+00:00", event_type := .discovery,
    agent_id := "agent-1", content := ⟨List.replicate n 'a'⟩ }

/-- Content of 2001 characters whose first is a NUL: Python sees length
2001, SQLite `length` sees 0. -/
def evNul : Event :=
  { id := "evt-1", timestamp := "2026-01-01T00:00:00+00:00", event_type := .discovery,
    agent_id := "agent-1", content := ⟨Char.ofNat 0 :: List.replicate 2000 'a'⟩ }

/-- C5 counterexample: the original claim — insert always fails when the
content length is 2001 characters or more — is false of the program.
`evNul`'s content has 2001 characters, but SQLite `length` stops at its
leading NUL, the CHECK passes, and the insert succeeds, storing the content
unmodified. -/
theorem c5_counterexample :
    evNul.content.length = 2001
    ∧ exceptIsOk (EventStore.insert [] evNul "g" "t") = true
    ∧ (storedRow evNul "g" "t").content = evNul.content :=
  ⟨by show (Char.ofNat 0 :: List.replicate 2000 'a').length = 2001
      rw [List.length_cons, List.length_replicate],
   rfl, rfl⟩

/-- C5 witness: NUL-free content of 2001 characters is rejected, of 2000
characters accepted with the content stored unmodified, and for NUL-free
content the SQLite length is the plain character count. -/
theorem c5_witness :
    (exceptIsOk (EventStore.insert [] (evOfLen 2001) "g" "t") = false)
    ∧ (EventStore.insert [] (evOfLen 2000) "g" "t" =
         .ok ([] ++ [storedRow (evOfLen 2000) "g" "t"], assignIdTs (evOfLen 2000) "g" "t") ∧
       (storedRow (evOfLen 2000) "g" "t").content = (evOfLen 2000).content ∧
       (assignIdTs (evOfLen 2000) "g" "t").content = (evOfLen 2000).content)
    ∧ sqliteLength (evOfLen 2001).content = (evOfLen 2001).content.length :=
  have hall : ∀ n, ((evOfLen n).content.data.all (fun c => c.toNat ≠ 0)) = true := fun n => by
    show (List.replicate n 'a').all (fun c => c.toNat ≠ 0) = true
    rw [List.all_eq_true]
    intro x hx
    rw [List.eq_of_mem_replicate hx]
    decide
  have hlen : ∀ n, (evOfLen n).content.length = n := fun n => by
    show (⟨List.replicate n 'a'⟩ : String).length = n
    simp [String.length]
  have hsl : ∀ n, sqliteLength (evOfLen n).content = n := fun n => by
    rw [(c5_insert_content_bound [] (evOfLen n) "g" "t").2.2 (hall n), hlen]
  ⟨(c5_insert_content_bound [] (evOfLen 2001) "g" "t").1
     (by rw [hsl]),
   (c5_insert_content_bound [] (evOfLen 2000) "g" "t").2.1
     (by rw [hsl]) rfl rfl rfl,
   (c5_insert_content_bound [] (evOfLen 2001) "g" "t").2.2 (hall 2001)⟩

/-- C8: a successful `update_status` on an existing event changes only the
lifecycle fields — id, timestamp, type, agent, content, scope, related ids
and session id are unchanged — and overwrites `resolved_reason` and
`superseded_by` with exactly the supplied arguments (the Python defaults are
`None`, so reopening with plain `update_status(id, "active")` clears both,
and resolving clears a previously stored `superseded_by`).  Rows with a
different id are untouched. -/
theorem c8_update_status_frame (db : List Event) (event_id status : String)
    (rr sb : Option String) (e : Event)
    (hv : validStatus status = true)
    (hf : db.find? (fun x => x.id = event_id) = some e) :
    ∃ db' e', update_status db event_id status rr sb = .ok (db', e') ∧
      e'.id = e.id ∧ e'.timestamp = e.timestamp ∧ e'.event_type = e.event_type ∧
      e'.agent_id = e.agent_id ∧ e'.content = e.content ∧ e'.scope = e.scope ∧
      e'.related_ids = e.related_ids ∧ e'.session_id = e.session_id ∧
      e'.status = status ∧ e'.resolved_reason = rr ∧ e'.superseded_by = sb ∧
      (∀ x ∈ db, x.id ≠ event_id → x ∈ db') := by
  have hid : e.id = event_id := by
    have := List.find?_eq_some.mp hf
    simpa using this.1
  refine ⟨db.map (updRow event_id status rr sb), updRow event_id status rr sb e,
    update_status_found db event_id status rr sb e hv hf,
    ?_, ?_, ?_, ?_, ?_, ?_, ?_, ?_, ?_, ?_, ?_, ?_⟩
  all_goals first
    | · simp [updRow, hid]
    | · intro x hx hne
        have : updRow event_id status rr sb x = x := by
          unfold updRow
          rw [if_neg hne]
        exact this ▸ List.mem_map_of_mem (updRow event_id status rr sb) hx

/-- A resolved event carrying a stale `superseded_by`, for the C8 witness. -/
def evRes : Event :=
  { id := "evt-3", timestamp := "2026-01-02T00:00:00+00:00", event_type := .decision,
    agent_id := "agent-1", content := "d", status := "resolved",
    resolved_reason := some "old reason", superseded_by := some "evt-9" }

/-- C8 witness: reopening `evRes` with `update_status(id, "active")` (both
optional arguments at their `None` defaults) keeps every non-lifecycle field
and clears `resolved_reason` and `superseded_by`. -/
theorem c8_witness :
    ∃ db' e', update_status [evRes] "evt-3" "active" none none = .ok (db', e') ∧
      e'.id = evRes.id ∧ e'.timestamp = evRes.timestamp ∧
      e'.event_type = evRes.event_type ∧ e'.agent_id = evRes.agent_id ∧
      e'.content = evRes.content ∧ e'.scope = evRes.scope ∧
      e'.related_ids = evRes.related_ids ∧ e'.session_id = evRes.session_id ∧
      e'.status = "active" ∧ e'.resolved_reason = none ∧ e'.superseded_by = none ∧
      (∀ x ∈ [evRes], x.id ≠ "evt-3" → x ∈ db') :=
  c8_update_status_frame [evRes] "evt-3" "active" none none evRes (by decide) (by decide)

/-- C9: a collapsed window's synthetic event keeps only id, timestamp, type,
agent and scope from the latest window event; status and priority are the
dataclass defaults `active`/`normal` (never inherited), the lifecycle fields
are clear, and `related_ids` lists every collapsed event's id.  The final
conjunct ties this to `_deduplicate_mutations`: every window of size ≥ 2
produces exactly this synthetic event. -/
theorem c9_collapsed_defaults (filepath : String) (w : List Event) (h : w ≠ []) :
    (collapseEvent filepath w h).status = "active" ∧
    (collapseEvent filepath w h).priority = "normal" ∧
    (collapseEvent filepath w h).resolved_reason = none ∧
    (collapseEvent filepath w h).superseded_by = none ∧
    (collapseEvent filepath w h).session_id = none ∧
    (collapseEvent filepath w h).id = (w.getLast h).id ∧
    (collapseEvent filepath w h).timestamp = (w.getLast h).timestamp ∧
    (collapseEvent filepath w h).event_type = (w.getLast h).event_type ∧
    (collapseEvent filepath w h).agent_id = (w.getLast h).agent_id ∧
    (collapseEvent filepath w h).scope = (w.getLast h).scope ∧
    (collapseEvent filepath w h).related_ids = some (w.map (fun e => e.id)) ∧
    (∀ e1 e2 rest, w = e1 :: e2 :: rest →
      processWindow filepath w = [collapseEvent filepath w h]) := by
  refine ⟨rfl, rfl, rfl, rfl, rfl, rfl, rfl, rfl, rfl, rfl, rfl, ?_⟩
  rintro e1 e2 rest rfl
  rfl

/-- Two mutation events to the same file five minutes apart, for the C9
witness. -/
def mutA : Event :=
  { id := "e1", timestamp := "2026-02-20T10:00:00+00:00", event_type := .mutation,
    agent_id := "agent-1", content := "edit", scope := some ["src/foo.py"],
    status := "resolved", priority := "critical" }

def mutB : Event :=
  { id := "e2", timestamp := "2026-02-20T10:05:00+00:00", event_type := .mutation,
    agent_id := "agent-1", content := "edit", scope := some ["src/foo.py"],
    status := "superseded", priority := "low" }

/-- C9 witness: collapsing a two-event window whose events are
resolved/critical and superseded/low still yields an active, normal-priority
synthetic event inheriting `mutB`'s identity fields. -/
theorem c9_witness :
    (collapseEvent "src/foo.py" [mutA, mutB] (by simp)).status = "active" ∧
    (collapseEvent "src/foo.py" [mutA, mutB] (by simp)).priority = "normal" ∧
    (collapseEvent "src/foo.py" [mutA, mutB] (by simp)).resolved_reason = none ∧
    (collapseEvent "src/foo.py" [mutA, mutB] (by simp)).superseded_by = none ∧
    (collapseEvent "src/foo.py" [mutA, mutB] (by simp)).session_id = none ∧
    (collapseEvent "src/foo.py" [mutA, mutB] (by simp)).id
      = ([mutA, mutB].getLast (by simp)).id ∧
    (collapseEvent "src/foo.py" [mutA, mutB] (by simp)).timestamp
      = ([mutA, mutB].getLast (by simp)).timestamp ∧
    (collapseEvent "src/foo.py" [mutA, mutB] (by simp)).event_type
      = ([mutA, mutB].getLast (by simp)).event_type ∧
    (collapseEvent "src/foo.py" [mutA, mutB] (by simp)).agent_id
      = ([mutA, mutB].getLast (by simp)).agent_id ∧
    (collapseEvent "src/foo.py" [mutA, mutB] (by simp)).scope
      = ([mutA, mutB].getLast (by simp)).scope ∧
    (collapseEvent "src/foo.py" [mutA, mutB] (by simp)).related_ids
      = some ([mutA, mutB].map (fun e => e.id)) ∧
    (∀ e1 e2 rest, [mutA, mutB] = e1 :: e2 :: rest →
      processWindow "src/foo.py" [mutA, mutB]
        = [collapseEvent "src/foo.py" [mutA, mutB] (by simp)]) :=
  c9_collapsed_defaults "src/foo.py" [mutA, mutB] (by simp)

theorem contains_iff_mem {l : List String} {a : String} :
    l.contains a = true ↔ a ∈ l := by
  simp [List.contains_eq_any_beq, List.any_eq_true, beq_iff_eq, eq_comm]

/-- Membership characterization of `_detect_stale`. -/
theorem mem_detectStale {dws muts : List Event} {W : Event} :
    W ∈ detectStale dws muts ↔
      W ∈ dws ∧ scopeTruthy W = true ∧
      ∃ M ∈ muts, scopeTruthy M = true ∧ strLt W.timestamp M.timestamp = true ∧
        ∃ s, s ∈ scopeList W ∧ s ∈ scopeList M := by
  unfold detectStale
  rw [List.mem_filter]
  simp only [Bool.and_eq_true, List.any_eq_true, and_assoc]
  constructor
  · rintro ⟨h1, h2, M, hM, h3, h4, h5⟩
    refine ⟨h1, h2, M, hM, h3, ?_, ?_⟩
    · rw [← strLe_false_iff]
      simpa using h4
    · rcases List.any_eq_true.mp h5 with ⟨s, hs1, hs2⟩
      exact ⟨s, hs1, contains_iff_mem.mp hs2⟩
  · rintro ⟨h1, h2, M, hM, h3, h4, s, hs1, hs2⟩
    refine ⟨h1, h2, M, hM, h3, ?_, ?_⟩
    · simpa using (strLe_false_iff _ _).mpr h4
    · exact List.any_eq_true.mpr ⟨s, hs1, contains_iff_mem.mpr hs2⟩

/-- C3: a warning or decision among the briefing candidates is flagged
potentially stale exactly when it has a truthy scope and some deduplicated
mutation with a truthy scope overlaps it and is strictly later; a scopeless
candidate is never flagged.  The trailing equations restate from `generate`
that the three sections are computed independently of the staleness pass, so
a flagged event still appears in its normal section. -/
theorem c3_staleness (warnings decisions mutations discoveries outcomes
    recently_resolved : List Event) (focus : Option String) :
    (∀ W, W ∈ (generate warnings decisions mutations discoveries outcomes
        recently_resolved focus).potentially_stale ↔
      (W ∈ warnings ++ decisions ∧ scopeTruthy W = true ∧
       ∃ M ∈ dedupMutations mutations, scopeTruthy M = true ∧
         strLt W.timestamp M.timestamp = true ∧
         ∃ s, s ∈ scopeList W ∧ s ∈ scopeList M))
    ∧ (generate warnings decisions mutations discoveries outcomes
        recently_resolved focus).critical_warnings
      = sortByPriorityRecency (criticalFilter warnings)
    ∧ (generate warnings decisions mutations discoveries outcomes
        recently_resolved focus).potentially_stale
      = detectStale (warnings ++ decisions) (dedupMutations mutations) := by
  exact ⟨fun W => mem_detectStale, rfl, rfl⟩

/-- C10 (amended): any all-ASCII input that matches neither the relative
`<N>(m|h|d|w)` pattern nor one of the three supported formats is returned
unchanged — malformed `since` strings pass through to the store's
lexicographic timestamp comparison rather than being rejected.  The ASCII
hypothesis marks the domain on which `pyStrip`/`splitRelative` and the
strptime field models agree with Python exactly: Python's `str.strip()` and
regex `\d` are Unicode-aware, so e.g. a NO-BREAK-SPACE-prefixed or
ARABIC-INDIC-digit relative string is also converted by the program.  (The
unconditional "never raises" part of the claim fails: see
`c10_counterexample`.) -/
theorem c10_parse_since_passthrough (nowUs : Int) (since : String)
    (_hA : since.data.all (fun c => c.toNat < 128) = true)
    (h1 : splitRelative (pyStrip since).data = none)
    (h2 : strptimeDate (pyStrip since).data = none)
    (h3 : strptimeDateTime (pyStrip since).data = none)
    (h4 : strptimeDateTimeTz (pyStrip since).data = none) :
    parse_since nowUs since = .ok since := by
  unfold parse_since
  simp only []
  rw [h1, h2, h3, h4]

/-- 2026-10-12T00:00:00 UTC on the linear microsecond scale. -/
def nowOct2026 : Int := usOfCivil 2026 10 12 0 0 0

/-- C10 counterexample: `parse_since` can raise — `"4000000d"` matches the
relative form, and subtracting 4 000 000 days underflows `datetime.min`
(the full datetime range is only ~3 652 058 days, so this raises
`OverflowError` for every possible current time; shown here at
2026-10-12). -/
theorem c10_counterexample :
    parse_since nowOct2026 "4000000d" = .error .overflowError := by
  rfl

/-- C10 witness: an arbitrary malformed ASCII string passes through
unchanged. -/
theorem c10_witness :
    parse_since nowOct2026 "not-a-date" = .ok "not-a-date" :=
  c10_parse_since_passthrough nowOct2026 "not-a-date" (by decide) rfl rfl rfl rfl

/-! Scenario inputs for the dedup claims: three mutations to the same
`(file, agent)` at 10:00, 10:05, 10:10, and a variant with the third at
11:01 (61 minutes after the first). -/

def sm1 : Event :=
  { id := "e1", timestamp := "2026-02-20T10:00:00+00:00", event_type := .mutation,
    agent_id := "agent-1", content := "edit", scope := some ["src/foo.py"] }

def sm2 : Event :=
  { id := "e2", timestamp := "2026-02-20T10:05:00+00:00", event_type := .mutation,
    agent_id := "agent-1", content := "edit", scope := some ["src/foo.py"] }

def sm3 : Event :=
  { id := "e3", timestamp := "2026-02-20T10:10:00+00:00", event_type := .mutation,
    agent_id := "agent-1", content := "edit", scope := some ["src/foo.py"] }

def sm3late : Event :=
  { id := "e3", timestamp := "2026-02-20T11:01:00+00:00", event_type := .mutation,
    agent_id := "agent-1", content := "edit", scope := some ["src/foo.py"] }

/-- C2: mutation deduplication.  (i) The windowing step extends the current
window exactly when the seconds-precision gap is at most 30 minutes (1800 s),
so a gap of exactly 30:00 still collapses and 30:01 does not;  (ii) a window
of size ≥ 2 collapses into the synthetic event whose content is
`"Modified {file} ({count} edits, {first_short_ts}-{last_short_ts})"` and
which inherits the latest event's id, timestamp, type, agent and scope with
`related_ids` listing every collapsed id;  (iii) three same-(file, agent)
mutations at t0, t0+5min, t0+10min dedup to exactly one entry saying
"3 edits";  (iv) with the third at t0+61min they dedup to exactly two
entries — a "2 edits" roll-up and the untouched third. -/
theorem c2_dedup_window :
    (∀ (prev curr : Event) (p c : Int),
      fromiso19 (prev.timestamp.data.take 19) = some p →
      fromiso19 (curr.timestamp.data.take 19) = some c →
      (gapJoins prev curr = true ↔ c - p ≤ 1800))
    ∧ (∀ (filepath : String) (w : List Event) (h : w ≠ []),
        (collapseEvent filepath w h).content =
          "Modified " ++ filepath ++ " (" ++ toString w.length ++ " edits, "
            ++ shortTimestamp (w.head h).timestamp ++ "-"
            ++ shortTimestamp (w.getLast h).timestamp ++ ")" ∧
        (collapseEvent filepath w h).id = (w.getLast h).id ∧
        (collapseEvent filepath w h).timestamp = (w.getLast h).timestamp ∧
        (collapseEvent filepath w h).event_type = (w.getLast h).event_type ∧
        (collapseEvent filepath w h).agent_id = (w.getLast h).agent_id ∧
        (collapseEvent filepath w h).scope = (w.getLast h).scope ∧
        (collapseEvent filepath w h).related_ids = some (w.map (fun e => e.id)))
    ∧ (dedupMutations [sm1, sm2, sm3]
        = [collapseEvent "src/foo.py" [sm1, sm2, sm3] (by simp)] ∧
       (collapseEvent "src/foo.py" [sm1, sm2, sm3] (by simp)).content
        = "Modified src/foo.py (3 edits, 2026-02-20 10:00-2026-02-20 10:10)")
    ∧ (dedupMutations [sm1, sm2, sm3late]
        = [sm3late, collapseEvent "src/foo.py" [sm1, sm2] (by simp)] ∧
       (collapseEvent "src/foo.py" [sm1, sm2] (by simp)).content
        = "Modified src/foo.py (2 edits, 2026-02-20 10:00-2026-02-20 10:05)") := by
  refine ⟨?_, ?_, ⟨?_, ?_⟩, ⟨?_, ?_⟩⟩
  · intro prev curr p c hp hc
    unfold gapJoins
    rw [hp, hc]
    simp
  · intro filepath w h
    exact ⟨rfl, rfl, rfl, rfl, rfl, rfl, rfl⟩
  · rfl
  · rfl
  · rfl
  · rfl

/-- Event pairs exactly 30:00 and 30:01 apart, for the C2 witness. -/
def smHalfHour : Event :=
  { id := "e4", timestamp := "2026-02-20T10:30:00+00:00", event_type := .mutation,
    agent_id := "agent-1", content := "edit", scope := some ["src/foo.py"] }

def smHalfHourPlus : Event :=
  { id := "e5", timestamp := "2026-02-20T10:30:01+00:00", event_type := .mutation,
    agent_id := "agent-1", content := "edit", scope := some ["src/foo.py"] }

/-- C2 witness: the boundary conjunct applied at gaps of exactly 30:00
(collapses) and 30:01 (does not), plus the collapse-shape conjunct at a
concrete two-event window. -/
theorem c2_witness :
    (gapJoins sm1 smHalfHour = true ↔ (1771583400 : Int) - 1771581600 ≤ 1800) ∧
    (gapJoins sm1 smHalfHourPlus = true ↔ (1771583401 : Int) - 1771581600 ≤ 1800) ∧
    (collapseEvent "src/foo.py" [sm1, sm2] (by simp)).content =
      "Modified " ++ "src/foo.py" ++ " (" ++ toString ([sm1, sm2].length) ++ " edits, "
        ++ shortTimestamp (([sm1, sm2].head (by simp)).timestamp) ++ "-"
        ++ shortTimestamp (([sm1, sm2].getLast (by simp)).timestamp) ++ ")" :=
  ⟨c2_dedup_window.1 sm1 smHalfHour 1771581600 1771583400 rfl rfl,
   c2_dedup_window.1 sm1 smHalfHourPlus 1771581600 1771583401 rfl rfl,
   (c2_dedup_window.2.1 "src/foo.py" [sm1, sm2] (by simp)).1⟩

/-- The relevance loop returns the score of the first scope entry with any
prefix relation to the focus path. -/
theorem relLoop_eq_find (f : String) (l : List String) :
    relLoop f l =
      (match l.find? (fun s => s = f || pyStartswith f s || pyStartswith s f) with
       | some s => if s = f then 3 else if pyStartswith f s then 2 else 1
       | none => 0) := by
  induction l with
  | nil => rfl
  | cons s rest ih =>
    by_cases h1 : s = f
    · simp [relLoop, List.find?, h1]
    · by_cases h2 : pyStartswith f s = true
      · simp [relLoop, List.find?, h1, h2]
      · by_cases h3 : pyStartswith s f = true
        · simp [relLoop, List.find?, h1, h2, h3]
        · simp only [relLoop, if_neg h1, h2, if_neg, Bool.false_eq_true, h3]
          rw [ih]
          have : (decide (s = f) || pyStartswith f s || pyStartswith s f) = false := by
            simp [h1, h2, h3]
          simp [List.find?, this]

/-- `_scope_relevance` equals the first-match characterization of the
claim's relevance rule (0 without any prefix relation; 3 exact, 2 when the
focus extends the entry, 1 when the entry extends the focus). -/
theorem scopeRelevance_eq_find (e : Event) (f : String) :
    scopeRelevance e f =
      (match (scopeList e).find? (fun s => s = f || pyStartswith f s || pyStartswith s f) with
       | some s => if s = f then 3 else if pyStartswith f s then 2 else 1
       | none => 0) := by
  unfold scopeRelevance
  cases hsc : e.scope with
  | none => simp [scopeTruthy, scopeList, hsc]
  | some l =>
    cases l with
    | nil => simp [scopeTruthy, scopeList, hsc]
    | cons s rest =>
      simp only [scopeTruthy, scopeList, hsc, Option.getD, List.isEmpty_cons,
        Bool.not_false, Bool.not_true, if_neg]
      rw [relLoop_eq_find]
      simp

/-- Under unique ids, membership of `e.id` in the projected id list of a
subset is membership of `e` itself. -/
theorem contains_id_iff {l aa : List Event} (hsub : ∀ x ∈ l, x ∈ aa)
    (hnd : (aa.map (fun e => e.id)).Nodup) {e : Event} (he : e ∈ aa) :
    ((l.map (fun x => x.id)).contains e.id = true) ↔ e ∈ l := by
  rw [contains_iff_mem]
  constructor
  · intro h
    rcases List.mem_map.mp h with ⟨c, hc, hce⟩
    have : c = e := List.inj_on_of_nodup_map hnd (hsub c hc) he hce
    exact this ▸ hc
  · intro h
    exact List.mem_map.mpr ⟨e, h, rfl⟩

theorem mem_sortByPriorityRecency {l : List Event} {x : Event} :
    x ∈ sortByPriorityRecency l ↔ x ∈ l := by
  unfold sortByPriorityRecency
  rw [mem_pySort, mem_pySort]

/-- C4: section assignment is a partition of the fetched non-mutation
candidates.  With unique event ids: `critical_warnings` holds exactly the
candidate warnings with critical priority or falsy scope; with a focus path,
`focus_relevant` holds exactly the remaining candidates with positive scope
relevance (and is empty without a focus); `other_active` holds exactly the
rest; every candidate lands in exactly one of the three; and the relevance
score is decided by the first scope entry with a prefix relation to the
focus (3 exact, 2 ancestor, 1 descendant, else 0). -/
theorem c4_section_partition (w d m di o rr : List Event) (focus : Option String)
    (hnd : ((w ++ d ++ di ++ o).map (fun e => e.id)).Nodup) :
    (∀ e, e ∈ (generate w d m di o rr focus).critical_warnings ↔
       e ∈ w ∧ (e.priority = "critical" ∨ scopeTruthy e = false))
    ∧ (focus = none → (generate w d m di o rr focus).focus_relevant = [])
    ∧ (∀ f, focus = some f → ∀ e,
        (e ∈ (generate w d m di o rr focus).focus_relevant ↔
          e ∈ w ++ d ++ di ++ o ∧
          e ∉ (generate w d m di o rr focus).critical_warnings ∧
          0 < scopeRelevance e f))
    ∧ (∀ e, e ∈ (generate w d m di o rr focus).other_active ↔
        e ∈ w ++ d ++ di ++ o ∧
        e ∉ (generate w d m di o rr focus).critical_warnings ∧
        e ∉ (generate w d m di o rr focus).focus_relevant)
    ∧ (∀ e ∈ w ++ d ++ di ++ o,
        (e ∈ (generate w d m di o rr focus).critical_warnings ∧
         e ∉ (generate w d m di o rr focus).focus_relevant ∧
         e ∉ (generate w d m di o rr focus).other_active)
        ∨ (e ∉ (generate w d m di o rr focus).critical_warnings ∧
           e ∈ (generate w d m di o rr focus).focus_relevant ∧
           e ∉ (generate w d m di o rr focus).other_active)
        ∨ (e ∉ (generate w d m di o rr focus).critical_warnings ∧
           e ∉ (generate w d m di o rr focus).focus_relevant ∧
           e ∈ (generate w d m di o rr focus).other_active))
    ∧ (∀ e f, scopeRelevance e f =
        (match (scopeList e).find?
            (fun s => s = f || pyStartswith f s || pyStartswith s f) with
         | some s => if s = f then 3 else if pyStartswith f s then 2 else 1
         | none => 0)) := by
  have hsubCrit : ∀ x ∈ criticalFilter w, x ∈ w ++ d ++ di ++ o := by
    intro x hx
    have : x ∈ w := (List.mem_filter.mp hx).1
    simp [this]
  have hcritMem : ∀ e, e ∈ (generate w d m di o rr focus).critical_warnings ↔
      e ∈ criticalFilter w := by
    intro e
    show e ∈ sortByPriorityRecency (criticalFilter w) ↔ _
    exact mem_sortByPriorityRecency
  have hcritIff : ∀ e, e ∈ (generate w d m di o rr focus).critical_warnings ↔
      e ∈ w ∧ (e.priority = "critical" ∨ scopeTruthy e = false) := by
    intro e
    rw [hcritMem e]
    unfold criticalFilter
    rw [List.mem_filter]
    simp [Bool.or_eq_true, decide_eq_true_eq, Bool.not_eq_true']
  have hcritContains : ∀ e, e ∈ w ++ d ++ di ++ o →
      ((((criticalFilter w).map (fun x => x.id)).contains e.id = true) ↔
        e ∈ (generate w d m di o rr focus).critical_warnings) := by
    intro e he
    rw [contains_id_iff hsubCrit hnd he, hcritMem e]
  rcases hf : focus with _ | f
  case none =>
    subst hf
    have hfrEmpty : (generate w d m di o rr none).focus_relevant = [] := rfl
    have hoaIff : ∀ e, e ∈ (generate w d m di o rr none).other_active ↔
        e ∈ w ++ d ++ di ++ o ∧
        e ∉ (generate w d m di o rr none).critical_warnings ∧
        e ∉ (generate w d m di o rr none).focus_relevant := by
      intro e
      show e ∈ sortByPriorityRecency ((w ++ d ++ di ++ o).filter _) ↔ _
      rw [mem_sortByPriorityRecency, List.mem_filter]
      constructor
      · rintro ⟨he, hb⟩
        simp only [Bool.and_eq_true, Bool.not_eq_true'] at hb
        refine ⟨he, ?_, by simp [hfrEmpty]⟩
        intro hmem
        have hc := (hcritContains e he).mpr hmem
        rw [hb.1] at hc
        cases hc
      · rintro ⟨he, hcr, _⟩
        refine ⟨he, ?_⟩
        simp only [Bool.and_eq_true, Bool.not_eq_true']
        constructor
        · rw [Bool.eq_false_iff]
          intro hc
          exact hcr ((hcritContains e he).mp hc)
        · rfl
    refine ⟨hcritIff, fun _ => hfrEmpty, ?_, hoaIff, ?_, fun e f => scopeRelevance_eq_find e f⟩
    · intro f hsome
      cases hsome
    · intro e he
      by_cases hc : e ∈ (generate w d m di o rr none).critical_warnings
      · refine Or.inl ⟨hc, by simp [hfrEmpty], ?_⟩
        intro hoa
        exact ((hoaIff e).mp hoa).2.1 hc
      · refine Or.inr (Or.inr ⟨hc, by simp [hfrEmpty], ?_⟩)
        exact (hoaIff e).mpr ⟨he, hc, by simp [hfrEmpty]⟩
  case some =>
    subst hf
    have hfrSubAA : ∀ x ∈ (w ++ d ++ di ++ o).filter
        (fun e => !(((criticalFilter w).map (fun x => x.id)).contains e.id)
          && decide (0 < scopeRelevance e f)), x ∈ w ++ d ++ di ++ o := by
      intro x hx
      exact (List.mem_filter.mp hx).1
    have hfrIff : ∀ e, e ∈ (generate w d m di o rr (some f)).focus_relevant ↔
        e ∈ w ++ d ++ di ++ o ∧
        e ∉ (generate w d m di o rr (some f)).critical_warnings ∧
        0 < scopeRelevance e f := by
      intro e
      show e ∈ sortByPriorityRecency ((w ++ d ++ di ++ o).filter _) ↔ _
      rw [mem_sortByPriorityRecency, List.mem_filter]
      constructor
      · rintro ⟨he, hb⟩
        simp only [Bool.and_eq_true, Bool.not_eq_true', decide_eq_true_eq] at hb
        refine ⟨he, ?_, hb.2⟩
        intro hmem
        have hc := (hcritContains e he).mpr hmem
        rw [hb.1] at hc
        cases hc
      · rintro ⟨he, hcr, hrel⟩
        refine ⟨he, ?_⟩
        simp only [Bool.and_eq_true, Bool.not_eq_true', decide_eq_true_eq]
        refine ⟨?_, hrel⟩
        rw [Bool.eq_false_iff]
        intro hc
        exact hcr ((hcritContains e he).mp hc)
    have hsubFr : ∀ x ∈ (w ++ d ++ di ++ o).filter
        (fun e => !(((criticalFilter w).map (fun x => x.id)).contains e.id)
          && decide (0 < scopeRelevance e f)), x ∈ w ++ d ++ di ++ o := hfrSubAA
    have hfrContains : ∀ e, e ∈ w ++ d ++ di ++ o →
        ((((w ++ d ++ di ++ o).filter
            (fun x => !(((criticalFilter w).map (fun y => y.id)).contains x.id)
              && decide (0 < scopeRelevance x f))).map (fun x => x.id)).contains e.id = true
          ↔ e ∈ (generate w d m di o rr (some f)).focus_relevant) := by
      intro e he
      rw [contains_id_iff hsubFr hnd he]
      show _ ↔ e ∈ sortByPriorityRecency _
      rw [mem_sortByPriorityRecency]
    have hoaIff : ∀ e, e ∈ (generate w d m di o rr (some f)).other_active ↔
        e ∈ w ++ d ++ di ++ o ∧
        e ∉ (generate w d m di o rr (some f)).critical_warnings ∧
        e ∉ (generate w d m di o rr (some f)).focus_relevant := by
      intro e
      show e ∈ sortByPriorityRecency ((w ++ d ++ di ++ o).filter _) ↔ _
      rw [mem_sortByPriorityRecency, List.mem_filter]
      constructor
      · rintro ⟨he, hb⟩
        simp only [Bool.and_eq_true, Bool.not_eq_true'] at hb
        refine ⟨he, ?_, ?_⟩
        · intro hmem
          have hc := (hcritContains e he).mpr hmem
          rw [hb.1] at hc
          cases hc
        · intro hmem
          have hc := (hfrContains e he).mpr hmem
          rw [hb.2] at hc
          cases hc
      · rintro ⟨he, hcr, hfr⟩
        refine ⟨he, ?_⟩
        simp only [Bool.and_eq_true, Bool.not_eq_true']
        constructor
        · rw [Bool.eq_false_iff]
          intro hc
          exact hcr ((hcritContains e he).mp hc)
        · rw [Bool.eq_false_iff]
          intro hc
          exact hfr ((hfrContains e he).mp hc)
    refine ⟨hcritIff, ?_, ?_, hoaIff, ?_, fun e f => scopeRelevance_eq_find e f⟩
    · intro hnone
      cases hnone
    · intro f' hsome e
      cases hsome
      exact hfrIff e
    · intro e he
      by_cases hc : e ∈ (generate w d m di o rr (some f)).critical_warnings
      · refine Or.inl ⟨hc, ?_, ?_⟩
        · intro hfr
          exact ((hfrIff e).mp hfr).2.1 hc
        · intro hoa
          exact ((hoaIff e).mp hoa).2.1 hc
      · by_cases hfr : e ∈ (generate w d m di o rr (some f)).focus_relevant
        · refine Or.inr (Or.inl ⟨hc, hfr, ?_⟩)
          intro hoa
          exact ((hoaIff e).mp hoa).2.2 hfr
        · exact Or.inr (Or.inr ⟨hc, hfr, (hoaIff e).mpr ⟨he, hc, hfr⟩⟩)

/-- A global (scopeless) critical warning. -/
def wCrit : Event :=
  { id := "w1", timestamp := "2026-02-20T09:00:00+00:00", event_type := .warning,
    agent_id := "agent-1", content := "global", scope := none, priority := "critical" }

/-- A normal-priority warning scoped away from the focus path. -/
def wNorm : Event :=
  { id := "w2", timestamp := "2026-02-20T09:30:00+00:00", event_type := .warning,
    agent_id := "agent-1", content := "scoped", scope := some ["src/y/f.py"],
    priority := "normal" }

/-- C4 witness: with focus `"src/x"`, the scopeless critical warning lands in
`critical_warnings` and the non-overlapping normal warning lands in
`other_active`, not `focus_relevant`. -/
theorem c4_witness :
    wCrit ∈ (generate [wCrit, wNorm] [] [] [] [] [] (some "src/x")).critical_warnings
    ∧ wNorm ∈ (generate [wCrit, wNorm] [] [] [] [] [] (some "src/x")).other_active
    ∧ wNorm ∉ (generate [wCrit, wNorm] [] [] [] [] [] (some "src/x")).focus_relevant := by
  have h := c4_section_partition [wCrit, wNorm] [] [] [] [] [] (some "src/x") (by decide)
  have hnotcrit : wNorm ∉
      (generate [wCrit, wNorm] [] [] [] [] [] (some "src/x")).critical_warnings :=
    fun hm => absurd ((h.1 wNorm).mp hm) (by decide)
  have hnotfr : wNorm ∉
      (generate [wCrit, wNorm] [] [] [] [] [] (some "src/x")).focus_relevant :=
    fun hm => absurd ((h.2.2.1 "src/x" rfl wNorm).mp hm)
      (fun hr => absurd hr.2.2 (by decide))
  exact ⟨(h.1 wCrit).mpr ⟨by decide, Or.inl rfl⟩,
    (h.2.2.2.1 wNorm).mpr ⟨by decide, hnotcrit, hnotfr⟩, hnotfr⟩

theorem strListLe_refl (a : List Char) : strListLe a a = true := by
  induction a with
  | nil => rfl
  | cons x xs ih => simpa [strListLe] using ih

theorem strLe_refl (a : String) : strLe a a = true := strListLe_refl a.data

/-- Extract the relation of an ordered pair from a pairwise-sorted list. -/
theorem pairwise_of_pair_sublist {α : Type} {R : α → α → Prop} {a b : α} {l : List α}
    (hp : l.Pairwise R) (hs : [a, b].Sublist l) : R a b := by
  have := List.Pairwise.sublist hs hp
  exact (List.pairwise_cons.mp this).1 b (by simp)

/-- The comparator of the first pass (timestamp descending). -/
def tsDescLe (a b : Event) : Bool := strLe b.timestamp a.timestamp

/-- The comparator of the second pass (priority ascending). -/
def priLe (a b : Event) : Bool := decide (priorityOrder a ≤ priorityOrder b)

theorem tsDescLe_total (a b : Event) : tsDescLe a b = true ∨ tsDescLe b a = true :=
  (strLe_total b.timestamp a.timestamp).imp (fun h => h) (fun h => h)

theorem tsDescLe_trans (a b c : Event) (h1 : tsDescLe a b = true)
    (h2 : tsDescLe b c = true) : tsDescLe a c = true := strLe_trans h2 h1

theorem priLe_total (a b : Event) : priLe a b = true ∨ priLe b a = true := by
  unfold priLe
  rcases Nat.le_total (priorityOrder a) (priorityOrder b) with h | h
  · left; simpa using h
  · right; simpa using h

theorem priLe_trans (a b c : Event) (h1 : priLe a b = true) (h2 : priLe b c = true) :
    priLe a c = true := by
  simp only [priLe, decide_eq_true_eq] at h1 h2 ⊢
  omega

/-- C7: within each briefing section the output order is the two-pass stable
sort — a stable sort by timestamp descending followed by a stable sort by
priority ascending (critical < high < normal < low).  Conjuncts: the three
sections are `sortByPriorityRecency` of their candidate lists; the sort is
literally the two passes; it permutes its input; priorities are
non-decreasing along the output; among duplicate-free events of equal
priority the newer comes first; and pairs tied on both priority and
timestamp keep their input order (stability). -/
theorem c7_two_pass_sort (w d m di o rr : List Event) (focus : Option String) :
    ((generate w d m di o rr focus).critical_warnings
      = sortByPriorityRecency (criticalFilter w))
    ∧ (focus = none →
        (generate w d m di o rr focus).focus_relevant = [] ∧
        (generate w d m di o rr focus).other_active
          = sortByPriorityRecency ((w ++ d ++ di ++ o).filter (fun e =>
              !(((criticalFilter w).map (fun x => x.id)).contains e.id)
                && !(([] : List String).contains e.id))))
    ∧ (∀ f, focus = some f →
        (generate w d m di o rr focus).focus_relevant
          = sortByPriorityRecency ((w ++ d ++ di ++ o).filter (fun e =>
              !(((criticalFilter w).map (fun x => x.id)).contains e.id)
                && decide (0 < scopeRelevance e f))) ∧
        (generate w d m di o rr focus).other_active
          = sortByPriorityRecency ((w ++ d ++ di ++ o).filter (fun e =>
              !(((criticalFilter w).map (fun x => x.id)).contains e.id)
                && !((((w ++ d ++ di ++ o).filter (fun x =>
                      !(((criticalFilter w).map (fun y => y.id)).contains x.id)
                        && decide (0 < scopeRelevance x f))).map
                    (fun x => x.id)).contains e.id))))
    ∧ (∀ l, sortByPriorityRecency l = pySort priLe (pySort tsDescLe l))
    ∧ (∀ l, (sortByPriorityRecency l).Perm l)
    ∧ (∀ l, (sortByPriorityRecency l).Pairwise
        (fun a b => priorityOrder a ≤ priorityOrder b))
    ∧ (∀ (l : List Event), l.Nodup → ∀ a b,
        [a, b].Sublist (sortByPriorityRecency l) →
        priorityOrder a = priorityOrder b →
        strLe b.timestamp a.timestamp = true)
    ∧ (∀ (l : List Event) (a b : Event),
        priorityOrder a = priorityOrder b → a.timestamp = b.timestamp →
        [a, b].Sublist l → [a, b].Sublist (sortByPriorityRecency l)) := by
  refine ⟨rfl, ?_, ?_, fun l => rfl, ?_, ?_, ?_, ?_⟩
  · rintro rfl
    exact ⟨rfl, rfl⟩
  · rintro f rfl
    exact ⟨rfl, rfl⟩
  · intro l
    exact (pySort_perm _ _).trans (pySort_perm _ _)
  · intro l
    have := pySort_pairwise priLe_total priLe_trans (pySort tsDescLe l)
    refine this.imp ?_
    intro a b h
    simpa [priLe] using h
  · intro l hnd a b hs hpri
    have hs1nd : (pySort tsDescLe l).Nodup := ((pySort_perm tsDescLe l).nodup_iff).mpr hnd
    have houtnd : (pySort priLe (pySort tsDescLe l)).Nodup :=
      ((pySort_perm priLe (pySort tsDescLe l)).nodup_iff).mpr hs1nd
    have hne : a ≠ b := by
      intro heq
      subst heq
      have := hs.nodup houtnd
      simp at this
    have hamem : a ∈ pySort tsDescLe l := by
      have : a ∈ pySort priLe (pySort tsDescLe l) := hs.subset (by simp)
      exact mem_pySort.mp this
    have hbmem : b ∈ pySort tsDescLe l := by
      have : b ∈ pySort priLe (pySort tsDescLe l) := hs.subset (by simp)
      exact mem_pySort.mp this
    rcases pair_sublist_total hamem hbmem hne with h1 | h1
    · have hpair := pairwise_of_pair_sublist
        (pySort_pairwise tsDescLe_total tsDescLe_trans l) h1
      exact hpair
    · have hba : priLe b a = true := by
        simp [priLe, hpri]
      have := pySort_stable_pair hba h1
      exact absurd (pair_sublist_antisymm houtnd hs this) hne
  · intro l a b hpri hts hs
    have h1 : [a, b].Sublist (pySort tsDescLe l) :=
      pySort_stable_pair (by simp [tsDescLe, hts, strLe_refl]) hs
    exact pySort_stable_pair (by simp [priLe, hpri]) h1

/-- Two events tied on priority and timestamp, for the stability witness. -/
def tieA : Event :=
  { id := "t1", timestamp := "2026-02-20T12:00:00+00:00", event_type := .discovery,
    agent_id := "agent-1", content := "a" }

def tieB : Event :=
  { id := "t2", timestamp := "2026-02-20T12:00:00+00:00", event_type := .discovery,
    agent_id := "agent-1", content := "b" }

/-- C7 witness: the section equation at a concrete input, the newest-first
rule on a concrete duplicate-free equal-priority pair, and input-order
preservation for a concrete tie. -/
theorem c7_witness :
    ((generate [wCrit, wNorm] [] [] [] [] [] none).critical_warnings
      = sortByPriorityRecency (criticalFilter [wCrit, wNorm]))
    ∧ strLe sm1.timestamp sm2.timestamp = true
    ∧ [tieA, tieB].Sublist (sortByPriorityRecency [tieA, tieB]) :=
  ⟨(c7_two_pass_sort [wCrit, wNorm] [] [] [] [] [] none).1,
   (c7_two_pass_sort [] [] [] [] [] [] none).2.2.2.2.2.2.1 [sm1, sm2] (by decide)
     sm2 sm1 (by decide) rfl,
   (c7_two_pass_sort [] [] [] [] [] [] none).2.2.2.2.2.2.2 [tieA, tieB] tieA tieB
     rfl rfl (by decide)⟩

/-! ## C6: exactness of `query_related`'s LIKE-based matching

The LIKE patterns match a quoted id followed by `]` or `,` inside the JSON
column text.  That is element-exact as long as the ids involved contain no
character that interferes with the encoding or the pattern: ASCII printable,
no double quote or backslash (JSON escaping), no comma (the separator), no
`%`/`_` (LIKE wildcards), no uppercase letters (LIKE folds ASCII case).
Generated ids (`evt-` plus lowercase hex) all satisfy this. -/

/-- The safe-id character set. -/
def safeChar (c : Char) : Bool :=
  decide (32 ≤ c.toNat ∧ c.toNat < 127 ∧ c ≠ '"' ∧ c ≠ '\\' ∧ c ≠ ',' ∧
    c ≠ '%' ∧ c ≠ '_' ∧ ¬(65 ≤ c.toNat ∧ c.toNat ≤ 90))

def safeStr (s : String) : Bool := s.data.all safeChar

theorem pyJsonEscapeChar_safe {c : Char} (h : safeChar c = true) :
    pyJsonEscapeChar c = [c] := by
  simp only [safeChar, decide_eq_true_eq] at h
  obtain ⟨h32, h127, hq, hbs, _, _, _, _⟩ := h
  unfold pyJsonEscapeChar
  rw [if_neg hq, if_neg hbs, if_neg ?_, if_neg ?_, if_neg ?_, if_neg ?_, if_neg ?_,
    if_neg (by omega), if_pos (by omega)]
  all_goals intro he
  all_goals rw [he] at h32
  all_goals exact absurd h32 (by decide)

theorem flatMap_escape_safe {d : List Char} (h : ∀ c ∈ d, safeChar c = true) :
    d.flatMap pyJsonEscapeChar = d := by
  induction d with
  | nil => rfl
  | cons c cs ih =>
    rw [List.flatMap_cons, pyJsonEscapeChar_safe (h c (by simp)),
      ih (fun x hx => h x (by simp [hx]))]
    rfl

theorem pyJsonStr_safe {s : String} (h : safeStr s = true) :
    pyJsonStr s = '"' :: (s.data ++ ['"']) := by
  unfold pyJsonStr
  rw [flatMap_escape_safe (by simpa [safeStr, List.all_eq_true] using h)]
  simp

theorem likeLower_safe {c : Char} (h : safeChar c = true) : likeLower c = c := by
  simp only [safeChar, decide_eq_true_eq] at h
  unfold likeLower
  rw [if_neg h.2.2.2.2.2.2.2]

theorem likeCharEq_fixed {a b : Char} (ha : likeLower a = a) (hb : likeLower b = b) :
    likeCharEq a b = decide (a = b) := by
  unfold likeCharEq
  rw [ha, hb]

/-- Case-insensitive literal prefix test (what a wildcard-free LIKE pattern
piece does). -/
def ciPrefix : List Char → List Char → Bool
  | [], _ => true
  | _ :: _, [] => false
  | p :: ps, c :: cs => likeCharEq p c && ciPrefix ps cs

/-- Case-insensitive infix test. -/
def ciInfix (p : List Char) (s : List Char) : Bool := anySuffix (ciPrefix p) s

/-- Plain (case-sensitive) infix test. -/
def infixB (p : List Char) (s : List Char) : Bool :=
  anySuffix (fun t => p.isPrefixOf t) s

theorem likeMatch_percent_nil (s : List Char) : likeMatch ['%'] s = true := by
  induction s with
  | nil => rfl
  | cons c cs ih =>
    show likeMatch ['%'] (c :: cs) = true
    unfold likeMatch
    rw [if_pos rfl]
    show (likeMatch [] (c :: cs) || anySuffix (likeMatch []) cs) = true
    have : anySuffix (likeMatch []) cs = true := by
      have := ih
      unfold likeMatch at this
      rwa [if_pos rfl] at this
    rw [this, Bool.or_true]

theorem likeMatch_append_percent {p : List Char}
    (hw : ∀ c ∈ p, c ≠ '%' ∧ c ≠ '_') (s : List Char) :
    likeMatch (p ++ ['%']) s = ciPrefix p s := by
  induction p generalizing s with
  | nil => simpa [ciPrefix] using likeMatch_percent_nil s
  | cons q qs ih =>
    have hq := hw q (by simp)
    show likeMatch (q :: (qs ++ ['%'])) s = _
    unfold likeMatch
    rw [if_neg hq.1]
    cases s with
    | nil => rfl
    | cons c cs =>
      show ((decide (q = '_') || likeCharEq q c) && likeMatch (qs ++ ['%']) cs) = _
      rw [ih (fun x hx => hw x (by simp [hx])), decide_eq_false hq.2]
      rfl

theorem anySuffix_congr {α : Type} {f g : List α → Bool} (h : ∀ t, f t = g t)
    (s : List α) : anySuffix f s = anySuffix g s := by
  induction s with
  | nil => simpa [anySuffix] using h []
  | cons c cs ih => simp [anySuffix, h (c :: cs), ih]

theorem likeMatch_infix {p : List Char} (hw : ∀ c ∈ p, c ≠ '%' ∧ c ≠ '_')
    (s : List Char) : likeMatch ('%' :: (p ++ ['%'])) s = ciInfix p s := by
  show likeMatch ('%' :: (p ++ ['%'])) s = _
  unfold likeMatch
  rw [if_pos rfl]
  exact anySuffix_congr (likeMatch_append_percent hw) s

theorem ciPrefix_fixed {p s : List Char} (hp : ∀ c ∈ p, likeLower c = c)
    (hs : ∀ c ∈ s, likeLower c = c) : ciPrefix p s = p.isPrefixOf s := by
  induction p generalizing s with
  | nil => cases s <;> rfl
  | cons q qs ih =>
    cases s with
    | nil => rfl
    | cons c cs =>
      show (likeCharEq q c && ciPrefix qs cs) = _
      rw [likeCharEq_fixed (hp q (by simp)) (hs c (by simp)),
        ih (fun x hx => hp x (by simp [hx])) (fun x hx => hs x (by simp [hx]))]
      rfl

theorem ciInfix_fixed {p s : List Char} (hp : ∀ c ∈ p, likeLower c = c)
    (hs : ∀ c ∈ s, likeLower c = c) : ciInfix p s = infixB p s := by
  induction s with
  | nil =>
    show ciPrefix p [] = List.isPrefixOf p []
    exact ciPrefix_fixed hp (by simp)
  | cons c cs ih =>
    show (ciPrefix p (c :: cs) || ciInfix p cs) = (_ || _)
    rw [ciPrefix_fixed hp hs, ih (fun x hx => hs x (by simp [hx]))]
    rfl

theorem nil_isPrefixOf (s : List Char) : List.isPrefixOf [] s = true := by
  cases s <;> rfl

theorem cons_isPrefixOf_nil (a : Char) (p : List Char) :
    (a :: p).isPrefixOf [] = false := rfl

theorem prefixB_of_length_gt {p s : List Char} (h : s.length < p.length) :
    p.isPrefixOf s = false := by
  induction p generalizing s with
  | nil => simp at h
  | cons a as ih =>
    cases s with
    | nil => rfl
    | cons b bs =>
      rw [List.isPrefixOf_cons₂, ih (by simpa using Nat.lt_of_succ_lt_succ h)]
      simp

theorem prefixB_head_ne {a b : Char} (h : a ≠ b) (p t : List Char) :
    (a :: p).isPrefixOf (b :: t) = false := by
  rw [List.isPrefixOf_cons₂]
  simp [h]

theorem infixB_cons_quote {p : List Char} {c : Char} (hc : c ≠ '"') (t : List Char) :
    infixB ('"' :: p) (c :: t) = infixB ('"' :: p) t := by
  show ((('"' :: p).isPrefixOf (c :: t)) || anySuffix _ t) = _
  rw [prefixB_head_ne (fun h => hc h.symm) p t, Bool.false_or]
  rfl

theorem infixB_append_skip {xs : List Char} (hxs : ∀ c ∈ xs, c ≠ '"')
    (p t : List Char) : infixB ('"' :: p) (xs ++ t) = infixB ('"' :: p) t := by
  induction xs with
  | nil => rfl
  | cons x xr ih =>
    rw [List.cons_append, infixB_cons_quote (hxs x (by simp)),
      ih (fun c hc => hxs c (by simp [hc]))]

/-- Matching a quoted pattern body against a quote-free element followed by
its closing quote: it succeeds exactly when the element is the pattern body
and the delimiter follows. -/
theorem prefixB_elem {m : List Char} (hm : ∀ c ∈ m, c ≠ '"') :
    ∀ {x : List Char}, (∀ c ∈ x, c ≠ '"') → ∀ (dl : Char) (srest : List Char),
    (m ++ ['"', dl]).isPrefixOf (x ++ '"' :: srest)
      = (decide (m = x) && decide (srest.head? = some dl)) := by
  induction m with
  | nil =>
    intro x hx dl srest
    cases x with
    | nil =>
      show (['"', dl]).isPrefixOf ('"' :: srest) = _
      cases srest with
      | nil =>
        rw [List.isPrefixOf_cons₂, cons_isPrefixOf_nil]
        simp
      | cons c cs =>
        rw [List.isPrefixOf_cons₂, List.isPrefixOf_cons₂, nil_isPrefixOf]
        by_cases hdc : dl = c
        · subst hdc
          simp
        · simp [hdc, Ne.symm hdc]
    | cons a xr =>
      have ha := hx a (by simp)
      show (['"', dl]).isPrefixOf (a :: (xr ++ '"' :: srest)) = _
      rw [prefixB_head_ne (fun h => ha h.symm)]
      simp
  | cons b mr ih =>
    intro x hx dl srest
    have hb := hm b (by simp)
    have hmr : ∀ c ∈ mr, c ≠ '"' := fun c hc => hm c (by simp [hc])
    cases x with
    | nil =>
      show (b :: (mr ++ ['"', dl])).isPrefixOf ('"' :: srest) = _
      rw [prefixB_head_ne hb]
      simp
    | cons a xr =>
      have hxr : ∀ c ∈ xr, c ≠ '"' := fun c hc => hx c (by simp [hc])
      show (b :: (mr ++ ['"', dl])).isPrefixOf (a :: (xr ++ '"' :: srest)) = _
      rw [List.isPrefixOf_cons₂, ih hmr hxr dl srest]
      by_cases hba : b = a
      · subst hba
        simp
      · simp [hba]

theorem safeStr_spec {s : String} (h : safeStr s = true) :
    ∀ c ∈ s.data, 32 ≤ c.toNat ∧ c.toNat < 127 ∧ c ≠ '"' ∧ c ≠ '\\' ∧ c ≠ ',' ∧
      c ≠ '%' ∧ c ≠ '_' ∧ ¬(65 ≤ c.toNat ∧ c.toNat ≤ 90) := by
  intro c hc
  have h2 := (List.all_eq_true.mp h) c hc
  unfold safeChar at h2
  rwa [decide_eq_true_eq] at h2

/-- A safe pattern body can never start matching at a separator comma. -/
theorem prefixB_at_comma {idd : List Char}
    (hs : ∀ c ∈ idd, c ≠ ',') (d : Char) (t : List Char) :
    (idd ++ ['"', d]).isPrefixOf (',' :: t) = false := by
  cases idd with
  | nil => exact prefixB_head_ne (by decide) _ _
  | cons c cr => exact prefixB_head_ne (hs c (by simp)) _ _

theorem infixB_cons (p : List Char) (c : Char) (t : List Char) :
    infixB p (c :: t) = (p.isPrefixOf (c :: t) || infixB p t) := rfl

theorem infixB_nil (p : List Char) : infixB p [] = p.isPrefixOf [] := rfl

/-- Where the element patterns of `query_related` occur inside the JSON array
body: `"{id}"{d}` occurs exactly at the last element (for `d = ']'`) or at a
non-last element (for `d = ','`). -/
theorem infixB_jsonBody {id : String} (hid : safeStr id = true) (d : Char) :
    ∀ {l : List String}, (∀ e ∈ l, safeStr e = true) →
    infixB ('"' :: (id.data ++ ['"', d])) (pyJsonBody l ++ [']'])
      = ((decide (d = ',') && decide (id ∈ l.dropLast))
         || (decide (d = ']') && decide (l.getLast? = some id))) := by
  have hidq : ∀ c ∈ id.data, c ≠ '"' := fun c hc => (safeStr_spec hid c hc).2.2.1
  have hidc : ∀ c ∈ id.data, c ≠ ',' := fun c hc => (safeStr_spec hid c hc).2.2.2.2.1
  intro l
  induction l with
  | nil =>
    intro _
    show infixB _ [']'] = _
    rw [infixB_cons, infixB_nil, cons_isPrefixOf_nil,
      prefixB_of_length_gt (by simp)]
    simp
  | cons e rest ih =>
    intro hsafe
    have hesafe := hsafe e (by simp)
    have heq : ∀ c ∈ e.data, c ≠ '"' := fun c hc => (safeStr_spec hesafe c hc).2.2.1
    have hide : decide (id.data = e.data) = decide (id = e) := by
      by_cases h : id = e
      · simp [h]
      · have hd : id.data ≠ e.data := fun hh => h (String.ext hh)
        simp [h, hd]
    cases rest with
    | nil =>
      show infixB _ (pyJsonStr e ++ [']']) = _
      rw [pyJsonStr_safe hesafe]
      have htext : ('"' :: (e.data ++ ['"'])) ++ [']'] = '"' :: (e.data ++ '"' :: [']']) := by
        simp
      have hp2 : ('"' :: (id.data ++ ['"', d])).isPrefixOf ['"', ']'] = false :=
        prefixB_of_length_gt (by simp)
      have hp1 : ('"' :: (id.data ++ ['"', d])).isPrefixOf [']'] = false :=
        prefixB_of_length_gt (by simp)
      rw [htext, infixB_cons, List.isPrefixOf_cons₂,
        prefixB_elem hidq heq d [']'],
        infixB_append_skip heq, infixB_cons, infixB_cons, infixB_nil, hp2, hp1,
        cons_isPrefixOf_nil]
      by_cases h1 : id = e
      · subst h1
        by_cases h2 : d = ']'
        · subst h2
          simp
        · have h2' : ¬ (']' = d) := fun hh => h2 hh.symm
          simp [h2, h2']
      · have hd : id.data ≠ e.data := fun hh => h1 (String.ext hh)
        simp [hide, h1, hd]
        exact fun _ hh => h1 hh.symm
    | cons r rs =>
      have hrest : ∀ x ∈ r :: rs, safeStr x = true := fun x hx => hsafe x (by simp [hx])
      show infixB _ ((pyJsonStr e ++ ',' :: ' ' :: pyJsonBody (r :: rs)) ++ [']']) = _
      rw [pyJsonStr_safe hesafe]
      have htext : (('"' :: (e.data ++ ['"'])) ++ ',' :: ' ' :: pyJsonBody (r :: rs)) ++ [']']
          = '"' :: (e.data ++ '"' :: ',' :: ' ' :: (pyJsonBody (r :: rs) ++ [']'])) := by
        simp
      rw [htext, infixB_cons, List.isPrefixOf_cons₂,
        prefixB_elem hidq heq d (',' :: ' ' :: (pyJsonBody (r :: rs) ++ [']'])),
        infixB_append_skip heq, infixB_cons, List.isPrefixOf_cons₂,
        prefixB_at_comma hidc,
        infixB_cons_quote (by decide), infixB_cons_quote (by decide),
        ih hrest]
      by_cases h2 : d = ','
      · subst h2
        simp [hide, List.getLast?_cons_cons]
      · have h2' : ¬ (',' = d) := fun hh => h2 hh.symm
        simp [hide, h2, h2', List.getLast?_cons_cons]

theorem safeStr_char {s : String} (h : safeStr s = true) {c : Char} (hc : c ∈ s.data) :
    safeChar c = true := (List.all_eq_true.mp h) c hc

/-- All characters of the JSON body of a safe id list are fixed under LIKE's
ASCII case folding. -/
theorem jsonBody_fixed {l : List String} (h : ∀ e ∈ l, safeStr e = true) :
    ∀ c ∈ pyJsonBody l, likeLower c = c := by
  induction l with
  | nil => intro c hc; cases hc
  | cons e rest ih =>
    intro c hc
    cases rest with
    | nil =>
      rw [show pyJsonBody [e] = pyJsonStr e from rfl,
        pyJsonStr_safe (h e (by simp))] at hc
      rcases List.mem_cons.mp hc with rfl | hc
      · decide
      · rcases List.mem_append.mp hc with hc | hc
        · exact likeLower_safe (safeStr_char (h e (by simp)) hc)
        · simp only [List.mem_singleton] at hc
          subst hc
          decide
    | cons r rs =>
      rw [show pyJsonBody (e :: r :: rs)
            = pyJsonStr e ++ ',' :: ' ' :: pyJsonBody (r :: rs) from rfl,
        pyJsonStr_safe (h e (by simp))] at hc
      rcases List.mem_cons.mp hc with rfl | hc
      · decide
      · rcases List.mem_append.mp hc with hc | hc
        · rcases List.mem_append.mp hc with hc | hc
          · exact likeLower_safe (safeStr_char (h e (by simp)) hc)
          · simp only [List.mem_singleton] at hc
            subst hc
            decide
        · rcases List.mem_cons.mp hc with rfl | hc
          · decide
          · rcases List.mem_cons.mp hc with rfl | hc
            · decide
            · exact ih (fun x hx => h x (by simp [hx])) c hc

/-- On safe ids, the SQL LIKE test of `query_related` agrees with exact
element membership in `related_ids`. -/
theorem relatedMatches_eq {id : String} (hid : safeStr id = true) (e : Event)
    (hsafe : ∀ l, e.related_ids = some l → ∀ rid ∈ l, safeStr rid = true) :
    relatedMatches id e = relatedHas e id := by
  unfold relatedMatches relatedHas relatedJson
  cases hrel : e.related_ids with
  | none => rfl
  | some l =>
    show (match (if l.isEmpty = true then none else some (pyJsonDumps l)) with
          | none => false
          | some txt => likeMatch (relatedPatClose id) txt
              || likeMatch (relatedPatComma id) txt) = l.contains id
    by_cases hemp : l.isEmpty
    · rw [if_pos hemp]
      have : l = [] := by simpa [List.isEmpty_iff] using hemp
      subst this
      rfl
    · rw [if_neg hemp]
      show (likeMatch (relatedPatClose id) (pyJsonDumps l)
          || likeMatch (relatedPatComma id) (pyJsonDumps l)) = l.contains id
      have hne : l ≠ [] := by simpa [List.isEmpty_iff] using hemp
      have hls : ∀ rid ∈ l, safeStr rid = true := hsafe l hrel
      have hw1 : ∀ c ∈ '"' :: (id.data ++ ['"', ']']), c ≠ '%' ∧ c ≠ '_' := by
        intro c hc
        rcases List.mem_cons.mp hc with rfl | hc
        · exact ⟨by decide, by decide⟩
        · rcases List.mem_append.mp hc with hc | hc
          · have := safeStr_spec hid c hc
            exact ⟨this.2.2.2.2.2.1, this.2.2.2.2.2.2.1⟩
          · simp only [List.mem_cons, List.not_mem_nil, or_false] at hc
            rcases hc with rfl | rfl <;> exact ⟨by decide, by decide⟩
      have hw2 : ∀ c ∈ '"' :: (id.data ++ ['"', ',']), c ≠ '%' ∧ c ≠ '_' := by
        intro c hc
        rcases List.mem_cons.mp hc with rfl | hc
        · exact ⟨by decide, by decide⟩
        · rcases List.mem_append.mp hc with hc | hc
          · have := safeStr_spec hid c hc
            exact ⟨this.2.2.2.2.2.1, this.2.2.2.2.2.2.1⟩
          · simp only [List.mem_cons, List.not_mem_nil, or_false] at hc
            rcases hc with rfl | rfl <;> exact ⟨by decide, by decide⟩
      have hfix1 : ∀ c ∈ '"' :: (id.data ++ ['"', ']']), likeLower c = c := by
        intro c hc
        rcases List.mem_cons.mp hc with rfl | hc
        · decide
        · rcases List.mem_append.mp hc with hc | hc
          · exact likeLower_safe (safeStr_char hid hc)
          · simp only [List.mem_cons, List.not_mem_nil, or_false] at hc
            rcases hc with rfl | rfl <;> decide
      have hfix2 : ∀ c ∈ '"' :: (id.data ++ ['"', ',']), likeLower c = c := by
        intro c hc
        rcases List.mem_cons.mp hc with rfl | hc
        · decide
        · rcases List.mem_append.mp hc with hc | hc
          · exact likeLower_safe (safeStr_char hid hc)
          · simp only [List.mem_cons, List.not_mem_nil, or_false] at hc
            rcases hc with rfl | rfl <;> decide
      have hfixtxt : ∀ c ∈ pyJsonDumps l, likeLower c = c := by
        intro c hc
        unfold pyJsonDumps at hc
        rcases List.mem_cons.mp hc with rfl | hc
        · decide
        · rcases List.mem_append.mp hc with hc | hc
          · exact jsonBody_fixed hls c hc
          · simp only [List.mem_singleton] at hc
            subst hc
            decide
      have hshape1 : relatedPatClose id
          = '%' :: (('"' :: (id.data ++ ['"', ']'])) ++ ['%']) := by
        simp [relatedPatClose]
      have hshape2 : relatedPatComma id
          = '%' :: (('"' :: (id.data ++ ['"', ','])) ++ ['%']) := by
        simp [relatedPatComma]
      rw [hshape1, hshape2, likeMatch_infix hw1, likeMatch_infix hw2,
        ciInfix_fixed hfix1 hfixtxt, ciInfix_fixed hfix2 hfixtxt]
      show (infixB _ ('[' :: (pyJsonBody l ++ [']'])) || infixB _ ('[' :: (pyJsonBody l ++ [']']))) = _
      rw [infixB_cons_quote (by decide), infixB_cons_quote (by decide),
        infixB_jsonBody hid ']' hls, infixB_jsonBody hid ',' hls]
      have hmem : (id ∈ l) ↔ (id ∈ l.dropLast ∨ l.getLast? = some id) := by
        constructor
        · intro h
          conv at h => rw [← List.dropLast_append_getLast hne]
          rcases List.mem_append.mp h with h | h
          · exact Or.inl h
          · simp only [List.mem_singleton] at h
            right
            rw [List.getLast?_eq_getLast l hne, h]
        · intro h
          rcases h with h | h
          · conv => rw [← List.dropLast_append_getLast hne]
            exact List.mem_append.mpr (Or.inl h)
          · rw [List.getLast?_eq_getLast l hne] at h
            have := congrArg (fun x => x.getD "") h
            simp at this
            rw [← this]
            exact List.getLast_mem hne
      have hcont : l.contains id = decide (id ∈ l) := by
        rw [Bool.eq_iff_iff]
        simp [contains_iff_mem]
      rw [hcont]
      rw [Bool.eq_iff_iff]
      simp [hmem]
      tauto

/-- C6 (amended): for a queried id over the safe character set (printable
ASCII without uppercase letters, double quote, backslash, comma, or the LIKE
wildcards `%`/`_` — all generator-produced `evt-…` ids qualify), and a store
whose related ids are likewise safe, `query_related` returns exactly the
stored events whose `related_ids` contains the id as an element, ordered by
timestamp descending and capped at the limit; in particular every returned
event really lists the id, never merely a superstring of it. -/
theorem c6_query_related (db : List Event) (event_id : String) (limit : Nat)
    (hid : safeStr event_id = true)
    (hdb : ∀ e ∈ db, ∀ l, e.related_ids = some l → ∀ rid ∈ l, safeStr rid = true) :
    query_related db event_id limit
      = (sortTsDesc (db.filter (fun e => relatedHas e event_id))).take limit
    ∧ (∀ e ∈ query_related db event_id limit, relatedHas e event_id = true) := by
  have hfilter : db.filter (relatedMatches event_id)
      = db.filter (fun e => relatedHas e event_id) :=
    List.filter_congr (fun e he => relatedMatches_eq hid e (hdb e he))
  constructor
  · unfold query_related
    rw [hfilter]
  · intro e he
    unfold query_related at he
    rw [hfilter] at he
    have h1 : e ∈ sortTsDesc (db.filter (fun e => relatedHas e event_id)) :=
      (List.take_sublist _ _).subset he
    have h2 : e ∈ db.filter (fun e => relatedHas e event_id) := by
      unfold sortTsDesc at h1
      exact mem_pySort.mp h1
    exact (List.mem_filter.mp h2).2

/-- An event related only to `evt-abc123`. -/
def evRel : Event :=
  { id := "x1", timestamp := "2026-02-20T10:00:00+00:00", event_type := .outcome,
    agent_id := "agent-1", content := "o", related_ids := some ["evt-abc123"] }

/-- C6 counterexample: `query_related` does not return exactly the events
whose `related_ids` contains the queried id for every id — `%` is a LIKE
wildcard, so querying the id `"%"` returns an event related only to
`evt-abc123` even though `"%"` is not an element of its `related_ids`. -/
theorem c6_counterexample :
    relatedHas evRel "%" = false ∧ query_related [evRel] "%" 50 = [evRel] := by
  constructor <;> rfl

/-- C6 witness: the amended theorem at a safe concrete id; querying
`evt-abc` matches nothing (in particular not the event related only to
`evt-abc123`). -/
theorem c6_witness :
    (query_related [evRel] "evt-abc" 50
      = (sortTsDesc ([evRel].filter (fun e => relatedHas e "evt-abc"))).take 50
    ∧ (∀ e ∈ query_related [evRel] "evt-abc" 50, relatedHas e "evt-abc" = true))
    ∧ query_related [evRel] "evt-abc" 50 = [] :=
  ⟨c6_query_related [evRel] "evt-abc" 50 (by decide)
    (by
      intro e he l hl rid hrid
      simp only [List.mem_singleton] at he
      subst he
      rw [show evRel.related_ids = some ["evt-abc123"] from rfl] at hl
      injection hl with h
      subst h
      simp only [List.mem_singleton] at hrid
      subst hrid
      decide),
   rfl⟩
